import Mathlib

/-!
Shallow embedding of `gol_wormhole.py`: Conway's Game of Life on a rectangular
grid whose adjacency is modified by directional wormhole pairs.

Python dictionaries are modelled as association lists looked up front-to-back,
entries consed at the front shadowing older ones (Python dict overwrite
semantics).  Python exceptions (`raise ValueError`, out-of-range numpy reads)
are modelled by `Option`: `none` is a raised exception, propagated by `bind`.
The per-step memo cache of the source is a pure performance device (the
resolver is stateless) and is not modelled.
-/

/-- A grid location `(row, col)`, as in the source's `(r, c)` tuples. -/
abbrev Loc : Type := Int × Int

/-- A wormhole colour: an opaque equality-comparable identifier. -/
abbrev Color : Type := Nat

/-- Dictionary shaped like `portals_by_loc`: location to colour. -/
abbrev LocMap : Type := List (Loc × Color)

/-- Dictionary shaped like `portals_by_color`: colour to location list. -/
abbrev ColMap : Type := List (Color × List Loc)

/-- Association-list lookup modelling Python dict lookup (`d.get(k)` /
`d[k]`); the front-most matching entry wins. -/
def alookup {α β : Type} [DecidableEq α] (k : α) : List (α × β) → Option β
  | [] => none
  | (a, b) :: rest => if a = k then some b else alookup k rest

/-- One pixel of the first pass of `load_tunnels`: append location `l` to the
group of colour `col`, creating the group at the end if absent (this is
`temp_portals_by_color[color].append(location)` on a `defaultdict(list)`). -/
def addPixel (groups : List (Color × List Loc)) (l : Loc) (col : Color) :
    List (Color × List Loc) :=
  match groups with
  | [] => [(col, [l])]
  | (c0, ls) :: rest =>
    if c0 = col then (c0, ls ++ [l]) :: rest else (c0, ls) :: addPixel rest l col

/-- First pass of `load_tunnels`: group the scanned non-background pixels by
colour, preserving first-seen colour order and row-major location order.
The input list is the row-major pixel scan. -/
def groupByColor (pixels : List (Loc × Color)) : List (Color × List Loc) :=
  pixels.foldl (fun g p => addPixel g p.1 p.2) []

/-- The locations carrying colour `col`, in scan order (used only to state
properties of `load_tunnels`, not part of the source). -/
def occsFrom (col : Color) (pixels : List (Loc × Color)) : List Loc :=
  (pixels.filter (fun p => decide (p.2 = col))).map Prod.fst

/-- Second pass of `load_tunnels`, one colour group: a group with two or more
locations registers its first two (`count == 2` and `count > 2` branches of
the source behave identically apart from a warning); a smaller group is
discarded (`count < 2` branch). -/
def procStep (acc : LocMap × ColMap) (g : Color × List Loc) : LocMap × ColMap :=
  match g.2 with
  | l1 :: l2 :: _ => ((l2, g.1) :: (l1, g.1) :: acc.1, (g.1, [l1, l2]) :: acc.2)
  | _ => acc

/-- The function `load_tunnels`, with the image replaced by its row-major scan of
non-background pixels: returns `(processed_portals_by_loc,
final_portals_by_color)`. -/
def load_tunnels (pixels : List (Loc × Color)) : LocMap × ColMap :=
  (groupByColor pixels).foldl procStep ([], [])

/-- The function `get_other_portal`: the partner endpoint of `(r, c)` for `color`.
`none` models the two `raise ValueError` branches (missing or non-two-element
pair, or `(r, c)` absent from the pair). -/
def get_other_portal (r c : Int) (color : Color) (portals_by_color : ColMap) :
    Option Loc :=
  match alookup color portals_by_color with
  | none => none
  | some locs =>
    match locs with
    | [loc1, loc2] =>
      if loc1 = (r, c) then some loc2
      else if loc2 = (r, c) then some loc1
      else none
    | _ => none

/-- The departure checks of `get_actual_neighbor` (precedence
top > right > bottom > left), exactly the source's chain guarded by
`wormhole_applied is None`.  Outer `none` means no departure check fired;
`some res` means one fired with result `res` (`res = none` is a raised
`ValueError` from `get_other_portal`). -/
def departCheck (r c dr dc : Int) (hLoc : LocMap) (hCol : ColMap)
    (vLoc : LocMap) (vCol : ColMap) : Option (Option Loc) :=
  match alookup (r, c) vLoc, alookup (r, c) hLoc with
  | some cv, some ch =>
    if dr = -1 then some ((get_other_portal r c cv vCol).map fun o => (o.1 - 1, o.2 + dc))
    else if dc = 1 then some ((get_other_portal r c ch hCol).map fun o => (o.1 + dr, o.2 + 1))
    else if dr = 1 then some ((get_other_portal r c cv vCol).map fun o => (o.1 + 1, o.2 + dc))
    else if dc = -1 then some ((get_other_portal r c ch hCol).map fun o => (o.1 + dr, o.2 - 1))
    else none
  | some cv, none =>
    if dr = -1 then some ((get_other_portal r c cv vCol).map fun o => (o.1 - 1, o.2 + dc))
    else if dr = 1 then some ((get_other_portal r c cv vCol).map fun o => (o.1 + 1, o.2 + dc))
    else none
  | none, some ch =>
    if dc = 1 then some ((get_other_portal r c ch hCol).map fun o => (o.1 + dr, o.2 + 1))
    else if dc = -1 then some ((get_other_portal r c ch hCol).map fun o => (o.1 + dr, o.2 - 1))
    else none
  | none, none => none

/-- The symmetric checks of `get_actual_neighbor` against the standard
neighbor `(nrStd, ncStd)`, exactly the source's `elif` chain.  Outer `none`
means no symmetric rule fired. -/
def symmCheck (r c dr dc nrStd ncStd : Int) (hLoc : LocMap) (hCol : ColMap)
    (vLoc : LocMap) (vCol : ColMap) : Option (Option Loc) :=
  match alookup (nrStd, ncStd) vLoc, alookup (nrStd, ncStd) hLoc with
  | some cv, some ch =>
    if dr = 1 then some ((get_other_portal nrStd ncStd cv vCol).map fun o => (o.1 - 1, o.2 + (c - ncStd)))
    else if dc = -1 then some ((get_other_portal nrStd ncStd ch hCol).map fun o => (o.1 + (r - nrStd), o.2 - 1))
    else if dr = -1 then some ((get_other_portal nrStd ncStd cv vCol).map fun o => (o.1 + 1, o.2 + (c - ncStd)))
    else if dc = 1 then some ((get_other_portal nrStd ncStd ch hCol).map fun o => (o.1 + (r - nrStd), o.2 + 1))
    else none
  | some cv, none =>
    if dr = 1 then some ((get_other_portal nrStd ncStd cv vCol).map fun o => (o.1 - 1, o.2 + (c - ncStd)))
    else if dr = -1 then some ((get_other_portal nrStd ncStd cv vCol).map fun o => (o.1 + 1, o.2 + (c - ncStd)))
    else none
  | none, some ch =>
    if dc = -1 then some ((get_other_portal nrStd ncStd ch hCol).map fun o => (o.1 + (r - nrStd), o.2 - 1))
    else if dc = 1 then some ((get_other_portal nrStd ncStd ch hCol).map fun o => (o.1 + (r - nrStd), o.2 + 1))
    else none
  | none, none => none

/-- In-grid test `0 <= r < height and 0 <= c < width` as used by the source. -/
def inBounds (width height : Int) (p : Loc) : Prop :=
  0 ≤ p.1 ∧ p.1 < height ∧ 0 ≤ p.2 ∧ p.2 < width

instance (width height : Int) (p : Loc) : Decidable (inBounds width height p) :=
  inferInstanceAs (Decidable (0 ≤ p.1 ∧ p.1 < height ∧ 0 ≤ p.2 ∧ p.2 < width))

/-- The function `get_actual_neighbor`: resolve the neighbor of `(r, c)` at offset
`(dr, dc)`.  Departure checks first; if none fired and the standard neighbor
is in bounds, the symmetric checks; otherwise the standard neighbor.  The
result defaults to the standard neighbor `(r + dr, c + dc)` exactly as
`nr_res, nc_res = r + dr, c + dc` does in the source. -/
def get_actual_neighbor (r c dr dc width height : Int)
    (hLoc : LocMap) (hCol : ColMap) (vLoc : LocMap) (vCol : ColMap) :
    Option Loc :=
  match departCheck r c dr dc hLoc hCol vLoc vCol with
  | some res => res
  | none =>
    if inBounds width height (r + dr, c + dc) then
      match symmCheck r c dr dc (r + dr) (c + dc) hLoc hCol vLoc vCol with
      | some res => res
      | none => some (r + dr, c + dc)
    else some (r + dr, c + dc)

/-- Numpy single-axis index resolution: a non-negative index must be below
the length, a negative index wraps once from the end, anything else raises
`IndexError` (modelled as `none`). -/
def npIndex (len : Nat) (i : Int) : Option Nat :=
  if 0 ≤ i then (if i < (len : Int) then some i.toNat else none)
  else (if 0 ≤ i + (len : Int) then some (i + (len : Int)).toNat else none)

/-- Read `board[rr, cc]` with numpy semantics on a row-major list of rows. -/
def boardGetNp (board : List (List Nat)) (rr cc : Int) : Option Nat :=
  match npIndex board.length rr with
  | none => none
  | some ri =>
    match board.get? ri with
    | none => none
    | some row =>
      match npIndex row.length cc with
      | none => none
      | some ci => row.get? ci

/-- Total in-grid cell read (used only in statements, for indices already
known to be in bounds): row `rr`, column `cc`, defaulting to dead. -/
def cellAt (board : List (List Nat)) (rr cc : Int) : Nat :=
  match board.get? rr.toNat with
  | some row => (row.get? cc.toNat).getD 0
  | none => 0

/-- The eight relative offsets in the order the source's two nested loops
visit them (`dr` in `[-1, 0, 1]`, `dc` in `[-1, 0, 1]`, skipping `(0, 0)`). -/
def neighborOffsets : List (Int × Int) :=
  [(-1, -1), (-1, 0), (-1, 1), (0, -1), (0, 1), (1, -1), (1, 0), (1, 1)]

/-- The function `count_live_neighbors`: sum the live state of each resolved, in-bounds
neighbor over all eight directions, each direction counted independently.
Off-grid resolved neighbors contribute nothing and are not read. -/
def count_live_neighbors (r c : Int) (board : List (List Nat))
    (width height : Int) (hLoc : LocMap) (hCol : ColMap)
    (vLoc : LocMap) (vCol : ColMap) : Option Nat :=
  neighborOffsets.foldl
    (fun acc d =>
      acc.bind fun n =>
        (get_actual_neighbor r c d.1 d.2 width height hLoc hCol vLoc vCol).bind fun nb =>
          if inBounds width height nb then
            (boardGetNp board nb.1 nb.2).map fun v => n + v
          else some n)
    (some 0)

/-- Pure recount of `count_live_neighbors` used in statements: the same
eight-direction sum, written so that a direction whose resolved neighbor is
off-grid contributes zero and the board is read only at in-grid locations. -/
def pureCount (r c : Int) (board : List (List Nat)) (width height : Int)
    (hLoc : LocMap) (hCol : ColMap) (vLoc : LocMap) (vCol : ColMap) : Nat :=
  neighborOffsets.foldl
    (fun acc d =>
      match get_actual_neighbor r c d.1 d.2 width height hLoc hCol vLoc vCol with
      | some nb => if inBounds width height nb then acc + cellAt board nb.1 nb.2 else acc
      | none => acc)
    0

/-- Effectful map over a list in the `Option` monad, modelling a Python loop
whose body may raise: the first raised exception aborts the whole loop. -/
def optList {α β : Type} (f : α → Option β) : List α → Option (List β)
  | [] => some []
  | x :: xs =>
    match f x, optList f xs with
    | some y, some ys => some (y :: ys)
    | _, _ => none

/-- The function `step`: one generation.  A fresh grid of `height` rows by `width` columns
is produced (the source writes into `np.zeros_like(board)`); the input board
is only read.  Live cell: dies unless 2 or 3 live neighbors; dead cell: born
on exactly 3, written with the source's `< 2 or > 3` test. -/
def step (board : List (List Nat)) (width height : Int)
    (hLoc : LocMap) (hCol : ColMap) (vLoc : LocMap) (vCol : ColMap) :
    Option (List (List Nat)) :=
  optList
    (fun (r : Nat) =>
      optList
        (fun (c : Nat) =>
          (count_live_neighbors (r : Int) (c : Int) board width height hLoc hCol vLoc vCol).bind
            fun n =>
              (boardGetNp board (r : Int) (c : Int)).map fun cur =>
                if cur = 1 then (if n < 2 ∨ 3 < n then 0 else 1)
                else (if n = 3 then 1 else 0))
        (List.range width.toNat))
    (List.range height.toNat)

/-- The per-cell value written by `step` (used only in statements): the
source's survival/birth rule applied to the cell's current state and its
wormhole-aware live-neighbor count. -/
def nextCell (board : List (List Nat)) (width height : Int)
    (hLoc : LocMap) (hCol : ColMap) (vLoc : LocMap) (vCol : ColMap)
    (r c : Int) : Nat :=
  if cellAt board r c = 1 then
    (if pureCount r c board width height hLoc hCol vLoc vCol < 2 ∨
        3 < pureCount r c board width height hLoc hCol vLoc vCol then 0 else 1)
  else
    (if pureCount r c board width height hLoc hCol vLoc vCol = 3 then 1 else 0)

/-- Iterate `step` a fixed number of generations (the driving loop). -/
def stepN (width height : Int) (hLoc : LocMap) (hCol : ColMap)
    (vLoc : LocMap) (vCol : ColMap) :
    Nat → List (List Nat) → Option (List (List Nat))
  | 0, b => some b
  | n + 1, b =>
    (step b width height hLoc hCol vLoc vCol).bind
      (stepN width height hLoc hCol vLoc vCol n)

/-- The PortalIndex invariant of the specification: every colour present in
`byColor` maps to exactly two locations, both keys of `byLocation` mapping
back to it; and every `byLocation` key belongs to its colour's pair. -/
def portalInvariant (byLoc : LocMap) (byColor : ColMap) : Prop :=
  (∀ col locs, alookup col byColor = some locs →
    locs.length = 2 ∧ ∀ l ∈ locs, alookup l byLoc = some col) ∧
  (∀ l col, alookup l byLoc = some col →
    ∃ locs, alookup col byColor = some locs ∧ l ∈ locs)

/-- Decidable membership-based form of `portalInvariant`, convenient for
checking concrete indices. -/
def portalChecks (byLoc : LocMap) (byColor : ColMap) : Prop :=
  (∀ e ∈ byColor, e.2.length = 2 ∧ ∀ l ∈ e.2, alookup l byLoc = some e.1) ∧
  (∀ e ∈ byLoc, (alookup e.2 byColor).isSome = true ∧
    e.1 ∈ (alookup e.2 byColor).getD [])

instance (byLoc : LocMap) (byColor : ColMap) :
    Decidable (portalChecks byLoc byColor) := by
  unfold portalChecks
  infer_instance

/-- Spec-side definition for the refinement claim, following the words of
the specification only: standard Game of Life with dead off-grid borders,
live neighbor count over the eight arithmetic neighbors. -/
def stdCountLive (board : List (List Nat)) (width height : Int) (r c : Int) : Nat :=
  neighborOffsets.foldl
    (fun acc d =>
      if inBounds width height (r + d.1, c + d.2) then
        acc + cellAt board (r + d.1) (c + d.2)
      else acc)
    0

/-- Spec-side definition for the refinement claim: one standard Game of Life
generation; a live cell with 2 or 3 live neighbors survives, otherwise dies;
a dead cell with exactly 3 live neighbors is born. -/
def stdGolStep (board : List (List Nat)) (width height : Int) :
    List (List Nat) :=
  (List.range height.toNat).map fun (r : Nat) =>
    (List.range width.toNat).map fun (c : Nat) =>
      if cellAt board (r : Int) (c : Int) = 1 then
        (if stdCountLive board width height (r : Int) (c : Int) = 2 ∨
            stdCountLive board width height (r : Int) (c : Int) = 3 then 1 else 0)
      else
        (if stdCountLive board width height (r : Int) (c : Int) = 3 then 1 else 0)

/-! ### Association-list lemmas -/

theorem alookup_mem {α β : Type} [DecidableEq α] {k : α} {v : β} :
    ∀ {l : List (α × β)}, alookup k l = some v → (k, v) ∈ l := by
  intro l
  induction l with
  | nil => intro h; simp [alookup] at h
  | cons e rest ih =>
    intro h
    obtain ⟨a, b⟩ := e
    by_cases hk : a = k
    · subst hk
      simp [alookup] at h
      subst h
      exact List.mem_cons_self _ _
    · simp [alookup, hk] at h
      exact List.mem_cons_of_mem _ (ih h)

theorem alookup_of_mem_nodup {α β : Type} [DecidableEq α] {k : α} {v : β} :
    ∀ {l : List (α × β)}, (l.map Prod.fst).Nodup → (k, v) ∈ l →
      alookup k l = some v := by
  intro l
  induction l with
  | nil => intro _ h; simp at h
  | cons e rest ih =>
    intro hnd hm
    obtain ⟨a, b⟩ := e
    rw [List.map_cons, List.nodup_cons] at hnd
    rcases List.mem_cons.mp hm with h | h
    · injection h with h1 h2
      subst h1
      subst h2
      simp [alookup]
    · have hak : a ≠ k := by
        intro hak
        subst hak
        exact hnd.1 (List.mem_map.mpr ⟨(a, v), h, rfl⟩)
      simp [alookup, hak]
      exact ih hnd.2 h

theorem alookup_eq_none {α β : Type} [DecidableEq α] {k : α} :
    ∀ {l : List (α × β)}, alookup k l = none ↔ k ∉ l.map Prod.fst := by
  intro l
  induction l with
  | nil => simp [alookup]
  | cons e rest ih =>
    obtain ⟨a, b⟩ := e
    by_cases hk : a = k
    · subst hk; simp [alookup]
    · simp [alookup, hk, ih, Ne.symm hk]

/-! ### Lemmas about the first pass of load_tunnels -/

theorem alookup_addPixel (groups : List (Color × List Loc)) (l : Loc) (c col : Color) :
    alookup col (addPixel groups l c) =
      if c = col then some ((alookup col groups).getD [] ++ [l])
      else alookup col groups := by
  induction groups with
  | nil =>
    by_cases hc : c = col <;> simp [addPixel, alookup, hc]
  | cons g rest ih =>
    obtain ⟨c0, ls⟩ := g
    by_cases h0 : c0 = c
    · subst h0
      by_cases hc : c0 = col
      · subst hc; simp [addPixel, alookup]
      · simp [addPixel, alookup, hc]
    · by_cases hc : c0 = col
      · subst hc
        have : c ≠ c0 := fun h => h0 h.symm
        simp [addPixel, alookup, h0, this]
      · simp [addPixel, alookup, h0, hc, ih]

theorem keys_addPixel (groups : List (Color × List Loc)) (l : Loc) (c : Color) :
    (addPixel groups l c).map Prod.fst =
      if c ∈ groups.map Prod.fst then groups.map Prod.fst
      else groups.map Prod.fst ++ [c] := by
  induction groups with
  | nil => simp [addPixel]
  | cons g rest ih =>
    obtain ⟨c0, ls⟩ := g
    by_cases h0 : c0 = c
    · subst h0; simp [addPixel]
    · have : c ≠ c0 := fun h => h0 h.symm
      by_cases hm : c ∈ rest.map Prod.fst <;>
        simp [addPixel, h0, this, hm, ih]

theorem join_addPixel (groups : List (Color × List Loc)) (l : Loc) (c : Color) :
    List.Perm ((addPixel groups l c).map Prod.snd).flatten
      (((groups.map Prod.snd).flatten) ++ [l]) := by
  induction groups with
  | nil => simp [addPixel]
  | cons g rest ih =>
    obtain ⟨c0, ls⟩ := g
    by_cases h0 : c0 = c
    · subst h0
      simp only [addPixel, if_pos rfl, List.map_cons, List.flatten]
      have h1 : List.Perm (ls ++ [l] ++ (rest.map Prod.snd).flatten)
          (ls ++ ((rest.map Prod.snd).flatten ++ [l])) := by
        rw [List.append_assoc]
        exact List.Perm.append_left ls (List.perm_append_comm)
      simpa [List.append_assoc] using h1
    · simp only [addPixel, if_neg h0, List.map_cons, List.flatten]
      have h1 := List.Perm.append_left ls ih
      simpa [List.append_assoc] using h1

theorem occsFrom_nil (col : Color) : occsFrom col [] = [] := rfl

theorem occsFrom_cons (col : Color) (p : Loc × Color) (rest : List (Loc × Color)) :
    occsFrom col (p :: rest) =
      if p.2 = col then p.1 :: occsFrom col rest else occsFrom col rest := by
  by_cases h : p.2 = col <;> simp [occsFrom, List.filter_cons, h]

theorem groupByColor_go_some {col : Color} :
    ∀ (pixels : List (Loc × Color)) (acc : List (Color × List Loc)) (gs : List Loc),
      alookup col acc = some gs →
      alookup col (pixels.foldl (fun g p => addPixel g p.1 p.2) acc) =
        some (gs ++ occsFrom col pixels) := by
  intro pixels
  induction pixels with
  | nil => intro acc gs h; simpa [occsFrom] using h
  | cons p rest ih =>
    intro acc gs h
    rw [List.foldl_cons]
    by_cases hp : p.2 = col
    · have h2 : alookup col (addPixel acc p.1 p.2) = some (gs ++ [p.1]) := by
        rw [alookup_addPixel, if_pos hp, h]
        rfl
      rw [ih _ _ h2, occsFrom_cons, if_pos hp]
      simp
    · have h2 : alookup col (addPixel acc p.1 p.2) = some gs := by
        rw [alookup_addPixel, if_neg hp, h]
      rw [ih _ _ h2, occsFrom_cons, if_neg hp]

theorem groupByColor_go_none {col : Color} :
    ∀ (pixels : List (Loc × Color)) (acc : List (Color × List Loc)),
      alookup col acc = none → occsFrom col pixels = [] →
      alookup col (pixels.foldl (fun g p => addPixel g p.1 p.2) acc) = none := by
  intro pixels
  induction pixels with
  | nil => intro acc h _; simpa using h
  | cons p rest ih =>
    intro acc h hocc
    rw [occsFrom_cons] at hocc
    by_cases hp : p.2 = col
    · rw [if_pos hp] at hocc; exact absurd hocc (List.cons_ne_nil _ _)
    · rw [if_neg hp] at hocc
      rw [List.foldl_cons]
      refine ih _ ?_ hocc
      rw [alookup_addPixel, if_neg hp, h]

theorem groupByColor_go_new {col : Color} :
    ∀ (pixels : List (Loc × Color)) (acc : List (Color × List Loc)) (o : Loc) (os : List Loc),
      alookup col acc = none → occsFrom col pixels = o :: os →
      alookup col (pixels.foldl (fun g p => addPixel g p.1 p.2) acc) = some (o :: os) := by
  intro pixels
  induction pixels with
  | nil => intro acc o os _ hocc; simp [occsFrom] at hocc
  | cons p rest ih =>
    intro acc o os h hocc
    rw [occsFrom_cons] at hocc
    rw [List.foldl_cons]
    by_cases hp : p.2 = col
    · rw [if_pos hp] at hocc
      injection hocc with h1 h2
      have h2' : alookup col (addPixel acc p.1 p.2) = some [p.1] := by
        rw [alookup_addPixel, if_pos hp, h]
        rfl
      rw [groupByColor_go_some rest _ _ h2', h2, h1]
      simp
    · rw [if_neg hp] at hocc
      refine ih _ o os ?_ hocc
      rw [alookup_addPixel, if_neg hp, h]

theorem groupByColor_alookup_of_no_occ {col : Color} {pixels : List (Loc × Color)}
    (h : occsFrom col pixels = []) : alookup col (groupByColor pixels) = none :=
  groupByColor_go_none pixels [] rfl h

theorem groupByColor_alookup_of_occ {col : Color} {pixels : List (Loc × Color)}
    {o : Loc} {os : List Loc} (h : occsFrom col pixels = o :: os) :
    alookup col (groupByColor pixels) = some (o :: os) :=
  groupByColor_go_new pixels [] o os rfl h

theorem groupByColor_keys_nodup_go :
    ∀ (pixels : List (Loc × Color)) (acc : List (Color × List Loc)),
      (acc.map Prod.fst).Nodup →
      ((pixels.foldl (fun g p => addPixel g p.1 p.2) acc).map Prod.fst).Nodup := by
  intro pixels
  induction pixels with
  | nil => intro acc h; simpa using h
  | cons p rest ih =>
    intro acc h
    rw [List.foldl_cons]
    refine ih _ ?_
    rw [keys_addPixel]
    by_cases hm : p.2 ∈ acc.map Prod.fst
    · rwa [if_pos hm]
    · rw [if_neg hm]
      rw [List.nodup_append]
      exact ⟨h, List.nodup_singleton _, by
        intro a ha hb
        rw [List.mem_singleton] at hb
        subst hb
        exact hm ha⟩

theorem groupByColor_keys_nodup (pixels : List (Loc × Color)) :
    ((groupByColor pixels).map Prod.fst).Nodup :=
  groupByColor_keys_nodup_go pixels [] (by simp)

theorem groupByColor_flatten_perm_go :
    ∀ (pixels : List (Loc × Color)) (acc : List (Color × List Loc)),
      List.Perm ((pixels.foldl (fun g p => addPixel g p.1 p.2) acc).map Prod.snd).flatten
        ((acc.map Prod.snd).flatten ++ pixels.map Prod.fst) := by
  intro pixels
  induction pixels with
  | nil => intro acc; simp
  | cons p rest ih =>
    intro acc
    rw [List.foldl_cons]
    refine (ih (addPixel acc p.1 p.2)).trans ?_
    have h1 := List.Perm.append_right (rest.map Prod.fst) (join_addPixel acc p.1 p.2)
    refine h1.trans ?_
    rw [List.append_assoc, List.map_cons]
    exact List.Perm.append_left _ (by simp)

theorem groupByColor_flatten_nodup {pixels : List (Loc × Color)}
    (h : (pixels.map Prod.fst).Nodup) :
    (((groupByColor pixels).map Prod.snd).flatten).Nodup := by
  have hp := groupByColor_flatten_perm_go pixels []
  unfold groupByColor
  rw [List.Perm.nodup_iff hp]
  simpa using h

/-! ### Lemmas about the second pass of load_tunnels -/

theorem proc_byColor_skip {col : Color} :
    ∀ (groups : List (Color × List Loc)) (acc : LocMap × ColMap),
      col ∉ groups.map Prod.fst →
      alookup col ((groups.foldl procStep acc).2) = alookup col acc.2 := by
  intro groups
  induction groups with
  | nil => intro acc _; rfl
  | cons g gs ih =>
    intro acc hm
    rw [List.map_cons, List.mem_cons] at hm
    push_neg at hm
    rw [List.foldl_cons, ih _ hm.2]
    obtain ⟨c0, ls⟩ := g
    match ls with
    | [] => rfl
    | [x] => rfl
    | l1 :: l2 :: t =>
      have : c0 ≠ col := fun h => hm.1 h.symm
      simp [procStep, alookup, this]

theorem proc_byColor_reg {col : Color} {l1 l2 : Loc} {t : List Loc} :
    ∀ (groups : List (Color × List Loc)) (acc : LocMap × ColMap),
      (groups.map Prod.fst).Nodup →
      alookup col groups = some (l1 :: l2 :: t) →
      alookup col ((groups.foldl procStep acc).2) = some [l1, l2] := by
  intro groups
  induction groups with
  | nil => intro acc _ h; simp [alookup] at h
  | cons g gs ih =>
    intro acc hnd h
    obtain ⟨c0, ls⟩ := g
    rw [List.map_cons, List.nodup_cons] at hnd
    rw [List.foldl_cons]
    by_cases h0 : c0 = col
    · subst h0
      simp only [alookup, if_pos rfl] at h
      injection h with h1
      subst h1
      rw [proc_byColor_skip gs _ hnd.1]
      simp [procStep, alookup]
    · simp only [alookup, if_neg h0] at h
      exact ih _ hnd.2 h

theorem proc_byColor_short {col : Color} {ls : List Loc} :
    ∀ (groups : List (Color × List Loc)) (acc : LocMap × ColMap),
      (groups.map Prod.fst).Nodup →
      alookup col groups = some ls → ls.length < 2 →
      alookup col ((groups.foldl procStep acc).2) = alookup col acc.2 := by
  intro groups
  induction groups with
  | nil => intro acc _ h _; simp [alookup] at h
  | cons g gs ih =>
    intro acc hnd h hlen
    obtain ⟨c0, ls0⟩ := g
    rw [List.map_cons, List.nodup_cons] at hnd
    rw [List.foldl_cons]
    by_cases h0 : c0 = col
    · subst h0
      simp only [alookup, if_pos rfl] at h
      injection h with h1
      subst h1
      rw [proc_byColor_skip gs _ hnd.1]
      rcases ls0 with _ | ⟨x, _ | ⟨y, t⟩⟩
      · rfl
      · rfl
      · exfalso
        simp at hlen
        omega
    · simp only [alookup, if_neg h0] at h
      rw [ih _ hnd.2 h hlen]
      rcases ls0 with _ | ⟨x, _ | ⟨y, t⟩⟩
      · rfl
      · rfl
      · simp [procStep, alookup, h0]

theorem proc_byLoc_skip {l : Loc} :
    ∀ (groups : List (Color × List Loc)) (acc : LocMap × ColMap),
      l ∉ ((groups.map Prod.snd).flatten) →
      alookup l ((groups.foldl procStep acc).1) = alookup l acc.1 := by
  intro groups
  induction groups with
  | nil => intro acc _; rfl
  | cons g gs ih =>
    intro acc hm
    rw [List.map_cons, List.flatten_cons, List.mem_append] at hm
    push_neg at hm
    rw [List.foldl_cons, ih _ hm.2]
    obtain ⟨c0, ls⟩ := g
    match ls, hm.1 with
    | [], _ => rfl
    | [x], _ => rfl
    | l1 :: l2 :: t, hm1 =>
      have h1 : l1 ≠ l := fun h => hm1 (h ▸ List.mem_cons_self _ _)
      have h2 : l2 ≠ l := fun h =>
        hm1 (h ▸ List.mem_cons_of_mem _ (List.mem_cons_self _ _))
      simp [procStep, alookup, h1, h2]

theorem proc_byLoc_reg {col : Color} {locs : List Loc} {l1 l2 : Loc} {t : List Loc} :
    ∀ (groups : List (Color × List Loc)) (acc : LocMap × ColMap),
      (((groups.map Prod.snd).flatten)).Nodup →
      (col, locs) ∈ groups → locs = l1 :: l2 :: t →
      alookup l1 ((groups.foldl procStep acc).1) = some col ∧
      alookup l2 ((groups.foldl procStep acc).1) = some col := by
  intro groups
  induction groups with
  | nil => intro acc _ h _; simp at h
  | cons g gs ih =>
    intro acc hnd hm hlocs
    rw [List.map_cons, List.flatten_cons] at hnd
    rw [List.foldl_cons]
    rcases List.mem_cons.mp hm with h | h
    · subst h
      subst hlocs
      have hdisj := (List.nodup_append.mp hnd).2.2
      have hl1 : l1 ∉ (gs.map Prod.snd).flatten :=
        fun hx => hdisj (List.mem_cons_self _ _) hx
      have hl2 : l2 ∉ (gs.map Prod.snd).flatten :=
        fun hx => hdisj (List.mem_cons_of_mem _ (List.mem_cons_self _ _)) hx
      constructor
      · rw [proc_byLoc_skip gs _ hl1]
        by_cases h12 : l2 = l1 <;> simp [procStep, alookup, h12]
      · rw [proc_byLoc_skip gs _ hl2]
        simp [procStep, alookup]
    · exact ih _ (List.Nodup.of_append_right hnd) h hlocs

theorem proc_byLoc_inv {l : Loc} {col : Color} :
    ∀ (groups : List (Color × List Loc)) (acc : LocMap × ColMap),
      alookup l ((groups.foldl procStep acc).1) = some col →
      (∃ locs l1 l2 t, (col, locs) ∈ groups ∧ locs = l1 :: l2 :: t ∧
        (l = l1 ∨ l = l2)) ∨
      alookup l acc.1 = some col := by
  intro groups
  induction groups with
  | nil => intro acc h; exact Or.inr h
  | cons g gs ih =>
    intro acc h
    rw [List.foldl_cons] at h
    rcases ih _ h with h' | h'
    · obtain ⟨locs, l1, l2, t, hmem, hlocs, hl⟩ := h'
      exact Or.inl ⟨locs, l1, l2, t, List.mem_cons_of_mem _ hmem, hlocs, hl⟩
    · obtain ⟨c0, ls⟩ := g
      match ls, h' with
      | [], h' => exact Or.inr h'
      | [x], h' => exact Or.inr h'
      | l1 :: l2 :: t, h' =>
        simp only [procStep, alookup] at h'
        by_cases h2 : l2 = l
        · rw [if_pos h2] at h'
          injection h' with hc
          subst hc
          exact Or.inl ⟨l1 :: l2 :: t, l1, l2, t, List.mem_cons_self _ _, rfl,
            Or.inr h2.symm⟩
        · rw [if_neg h2] at h'
          by_cases h1 : l1 = l
          · rw [if_pos h1] at h'
            injection h' with hc
            subst hc
            exact Or.inl ⟨l1 :: l2 :: t, l1, l2, t, List.mem_cons_self _ _, rfl,
              Or.inl h1.symm⟩
          · rw [if_neg h1] at h'
            exact Or.inr h'

/-! ### Lemmas about get_other_portal and the portal invariant -/

theorem get_other_portal_mem {r c : Int} {col : Color} {bc : ColMap} {p : Loc}
    (h : get_other_portal r c col bc = some p) :
    ∃ locs, alookup col bc = some locs ∧ p ∈ locs := by
  unfold get_other_portal at h
  rcases hc : alookup col bc with _ | locs
  · rw [hc] at h; exact absurd h (by simp)
  · rw [hc] at h
    refine ⟨locs, rfl, ?_⟩
    match locs, h with
    | [], h => exact absurd h (by simp)
    | [a], h => exact absurd h (by simp)
    | a :: b :: x :: t, h => exact absurd h (by simp)
    | [loc1, loc2], h =>
      have h2 : (if loc1 = (r, c) then some loc2
          else if loc2 = (r, c) then some loc1 else none) = some p := h
      by_cases hx : loc1 = (r, c)
      · rw [if_pos hx] at h2
        injection h2 with h3
        subst h3
        simp
      · rw [if_neg hx] at h2
        by_cases hy : loc2 = (r, c)
        · rw [if_pos hy] at h2
          injection h2 with h3
          subst h3
          simp
        · rw [if_neg hy] at h2
          exact absurd h2 (by simp)

theorem get_other_portal_pair {r c : Int} {col : Color} {bc : ColMap} {l1 l2 : Loc}
    (h : alookup col bc = some [l1, l2]) (hm : (r, c) = l1 ∨ (r, c) = l2) :
    get_other_portal r c col bc = some (if l1 = (r, c) then l2 else l1) := by
  unfold get_other_portal
  rw [h]
  show (if l1 = (r, c) then some l2 else if l2 = (r, c) then some l1 else none) =
    some (if l1 = (r, c) then l2 else l1)
  by_cases h1 : l1 = (r, c)
  · simp [h1]
  · rcases hm with hm | hm
    · exact absurd hm.symm h1
    · simp [h1, hm.symm]

theorem portalInvariant_pair {bl : LocMap} {bc : ColMap}
    (hinv : portalInvariant bl bc) {l : Loc} {col : Color}
    (h : alookup l bl = some col) :
    ∃ l1 l2, alookup col bc = some [l1, l2] ∧ (l = l1 ∨ l = l2) := by
  obtain ⟨locs, hlocs, hmem⟩ := hinv.2 l col h
  obtain ⟨hlen, _⟩ := hinv.1 col locs hlocs
  match locs, hlen, hmem with
  | [l1, l2], _, hmem =>
    refine ⟨l1, l2, hlocs, ?_⟩
    simpa using hmem

theorem get_other_portal_of_inv {bl : LocMap} {bc : ColMap}
    (hinv : portalInvariant bl bc) {l : Loc} {col : Color}
    (h : alookup l bl = some col) :
    ∃ p, get_other_portal l.1 l.2 col bc = some p := by
  obtain ⟨l1, l2, hpair, hm⟩ := portalInvariant_pair hinv h
  exact ⟨_, get_other_portal_pair hpair (by simpa using hm)⟩

theorem portalInvariant_of_checks {bl : LocMap} {bc : ColMap}
    (h : portalChecks bl bc) : portalInvariant bl bc := by
  constructor
  · intro col locs hl
    exact h.1 (col, locs) (alookup_mem hl)
  · intro l col hl
    obtain ⟨hs, hm⟩ := h.2 (l, col) (alookup_mem hl)
    rcases ho : alookup col bc with _ | locs
    · rw [ho] at hs; simp at hs
    · rw [ho] at hm
      exact ⟨locs, rfl, by simpa using hm⟩

/-! ### Branch lemmas for the departure checks -/

theorem departCheck_top {r c dr dc : Int} {hLoc : LocMap} {hCol : ColMap}
    {vLoc : LocMap} {vCol : ColMap} {cv : Color}
    (hv : alookup (r, c) vLoc = some cv) (hdr : dr = -1) :
    departCheck r c dr dc hLoc hCol vLoc vCol =
      some ((get_other_portal r c cv vCol).map fun o => (o.1 - 1, o.2 + dc)) := by
  subst hdr
  unfold departCheck
  split <;> simp_all

theorem departCheck_right {r c dr dc : Int} {hLoc : LocMap} {hCol : ColMap}
    {vLoc : LocMap} {vCol : ColMap} {ch : Color}
    (hh : alookup (r, c) hLoc = some ch) (hdc : dc = 1)
    (hnv : ∀ cv, alookup (r, c) vLoc = some cv → dr ≠ -1) :
    departCheck r c dr dc hLoc hCol vLoc vCol =
      some ((get_other_portal r c ch hCol).map fun o => (o.1 + dr, o.2 + 1)) := by
  subst hdc
  unfold departCheck
  split <;> simp_all

theorem departCheck_bottom {r c dr dc : Int} {hLoc : LocMap} {hCol : ColMap}
    {vLoc : LocMap} {vCol : ColMap} {cv : Color}
    (hv : alookup (r, c) vLoc = some cv) (hdr : dr = 1)
    (hnh : ∀ ch, alookup (r, c) hLoc = some ch → dc ≠ 1) :
    departCheck r c dr dc hLoc hCol vLoc vCol =
      some ((get_other_portal r c cv vCol).map fun o => (o.1 + 1, o.2 + dc)) := by
  subst hdr
  unfold departCheck
  split <;> simp_all

theorem departCheck_left {r c dr dc : Int} {hLoc : LocMap} {hCol : ColMap}
    {vLoc : LocMap} {vCol : ColMap} {ch : Color}
    (hh : alookup (r, c) hLoc = some ch) (hdc : dc = -1)
    (hnv : ∀ cv, alookup (r, c) vLoc = some cv → dr ≠ -1 ∧ dr ≠ 1) :
    departCheck r c dr dc hLoc hCol vLoc vCol =
      some ((get_other_portal r c ch hCol).map fun o => (o.1 + dr, o.2 - 1)) := by
  subst hdc
  unfold departCheck
  split <;> rename_i hv hh'
  case _ cv ch' =>
    obtain ⟨h1, h2⟩ := hnv cv hv
    rw [hh] at hh'
    injection hh' with hh'
    subst hh'
    simp [h1, h2]
  case _ cv =>
    rw [hh] at hh'
    exact absurd hh' (by simp)
  case _ ch' =>
    rw [hh] at hh'
    injection hh' with hh'
    subst hh'
    simp
  case _ =>
    rw [hh] at hh'
    exact absurd hh' (by simp)

theorem departCheck_none {r c dr dc : Int} {hLoc : LocMap} {hCol : ColMap}
    {vLoc : LocMap} {vCol : ColMap}
    (hnv : ∀ cv, alookup (r, c) vLoc = some cv → dr ≠ -1 ∧ dr ≠ 1)
    (hnh : ∀ ch, alookup (r, c) hLoc = some ch → dc ≠ 1 ∧ dc ≠ -1) :
    departCheck r c dr dc hLoc hCol vLoc vCol = none := by
  unfold departCheck
  split <;> rename_i hv hh
  case _ cv ch =>
    obtain ⟨h1, h2⟩ := hnv cv hv
    obtain ⟨h3, h4⟩ := hnh ch hh
    simp [h1, h2, h3, h4]
  case _ cv =>
    obtain ⟨h1, h2⟩ := hnv cv hv
    simp [h1, h2]
  case _ ch =>
    obtain ⟨h3, h4⟩ := hnh ch hh
    simp [h3, h4]
  case _ => rfl

/-! ### Branch lemmas for the symmetric checks -/

theorem symmCheck_top {r c dr dc nrStd ncStd : Int} {hLoc : LocMap} {hCol : ColMap}
    {vLoc : LocMap} {vCol : ColMap} {cv : Color}
    (hv : alookup (nrStd, ncStd) vLoc = some cv) (hdr : dr = 1) :
    symmCheck r c dr dc nrStd ncStd hLoc hCol vLoc vCol =
      some ((get_other_portal nrStd ncStd cv vCol).map fun o =>
        (o.1 - 1, o.2 + (c - ncStd))) := by
  subst hdr
  unfold symmCheck
  split <;> simp_all

theorem symmCheck_left {r c dr dc nrStd ncStd : Int} {hLoc : LocMap} {hCol : ColMap}
    {vLoc : LocMap} {vCol : ColMap} {ch : Color}
    (hh : alookup (nrStd, ncStd) hLoc = some ch) (hdc : dc = -1)
    (hnv : ∀ cv, alookup (nrStd, ncStd) vLoc = some cv → dr ≠ 1) :
    symmCheck r c dr dc nrStd ncStd hLoc hCol vLoc vCol =
      some ((get_other_portal nrStd ncStd ch hCol).map fun o =>
        (o.1 + (r - nrStd), o.2 - 1)) := by
  subst hdc
  unfold symmCheck
  split <;> simp_all

theorem symmCheck_bottom {r c dr dc nrStd ncStd : Int} {hLoc : LocMap} {hCol : ColMap}
    {vLoc : LocMap} {vCol : ColMap} {cv : Color}
    (hv : alookup (nrStd, ncStd) vLoc = some cv) (hdr : dr = -1)
    (hnh : ∀ ch, alookup (nrStd, ncStd) hLoc = some ch → dc ≠ -1) :
    symmCheck r c dr dc nrStd ncStd hLoc hCol vLoc vCol =
      some ((get_other_portal nrStd ncStd cv vCol).map fun o =>
        (o.1 + 1, o.2 + (c - ncStd))) := by
  subst hdr
  unfold symmCheck
  split <;> simp_all

theorem symmCheck_right {r c dr dc nrStd ncStd : Int} {hLoc : LocMap} {hCol : ColMap}
    {vLoc : LocMap} {vCol : ColMap} {ch : Color}
    (hh : alookup (nrStd, ncStd) hLoc = some ch) (hdc : dc = 1)
    (hnv : ∀ cv, alookup (nrStd, ncStd) vLoc = some cv → dr ≠ 1 ∧ dr ≠ -1) :
    symmCheck r c dr dc nrStd ncStd hLoc hCol vLoc vCol =
      some ((get_other_portal nrStd ncStd ch hCol).map fun o =>
        (o.1 + (r - nrStd), o.2 + 1)) := by
  subst hdc
  unfold symmCheck
  split <;> rename_i hv hh'
  case _ cv ch' =>
    obtain ⟨h1, h2⟩ := hnv cv hv
    rw [hh] at hh'
    injection hh' with hh'
    subst hh'
    simp [h1, h2]
  case _ cv =>
    rw [hh] at hh'
    exact absurd hh' (by simp)
  case _ ch' =>
    rw [hh] at hh'
    injection hh' with hh'
    subst hh'
    simp
  case _ =>
    rw [hh] at hh'
    exact absurd hh' (by simp)

theorem symmCheck_none {r c dr dc nrStd ncStd : Int} {hLoc : LocMap} {hCol : ColMap}
    {vLoc : LocMap} {vCol : ColMap}
    (hnv : ∀ cv, alookup (nrStd, ncStd) vLoc = some cv → dr ≠ 1 ∧ dr ≠ -1)
    (hnh : ∀ ch, alookup (nrStd, ncStd) hLoc = some ch → dc ≠ -1 ∧ dc ≠ 1) :
    symmCheck r c dr dc nrStd ncStd hLoc hCol vLoc vCol = none := by
  unfold symmCheck
  split <;> rename_i hv hh
  case _ cv ch =>
    obtain ⟨h1, h2⟩ := hnv cv hv
    obtain ⟨h3, h4⟩ := hnh ch hh
    simp [h1, h2, h3, h4]
  case _ cv =>
    obtain ⟨h1, h2⟩ := hnv cv hv
    simp [h1, h2]
  case _ ch =>
    obtain ⟨h3, h4⟩ := hnh ch hh
    simp [h3, h4]
  case _ => rfl

/-! ### Reduction and totality lemmas for get_actual_neighbor -/

theorem gan_of_depart {r c dr dc width height : Int} {hLoc : LocMap} {hCol : ColMap}
    {vLoc : LocMap} {vCol : ColMap} {res : Option Loc}
    (hd : departCheck r c dr dc hLoc hCol vLoc vCol = some res) :
    get_actual_neighbor r c dr dc width height hLoc hCol vLoc vCol = res := by
  unfold get_actual_neighbor
  rw [hd]

theorem gan_of_symm {r c dr dc width height : Int} {hLoc : LocMap} {hCol : ColMap}
    {vLoc : LocMap} {vCol : ColMap} {res : Option Loc}
    (hd : departCheck r c dr dc hLoc hCol vLoc vCol = none)
    (hb : inBounds width height (r + dr, c + dc))
    (hs : symmCheck r c dr dc (r + dr) (c + dc) hLoc hCol vLoc vCol = some res) :
    get_actual_neighbor r c dr dc width height hLoc hCol vLoc vCol = res := by
  unfold get_actual_neighbor
  rw [hd]
  simp only [if_pos hb, hs]

theorem gan_default_in {r c dr dc width height : Int} {hLoc : LocMap} {hCol : ColMap}
    {vLoc : LocMap} {vCol : ColMap}
    (hd : departCheck r c dr dc hLoc hCol vLoc vCol = none)
    (hb : inBounds width height (r + dr, c + dc))
    (hs : symmCheck r c dr dc (r + dr) (c + dc) hLoc hCol vLoc vCol = none) :
    get_actual_neighbor r c dr dc width height hLoc hCol vLoc vCol =
      some (r + dr, c + dc) := by
  unfold get_actual_neighbor
  rw [hd]
  simp only [if_pos hb, hs]

theorem gan_default_out {r c dr dc width height : Int} {hLoc : LocMap} {hCol : ColMap}
    {vLoc : LocMap} {vCol : ColMap}
    (hd : departCheck r c dr dc hLoc hCol vLoc vCol = none)
    (hb : ¬ inBounds width height (r + dr, c + dc)) :
    get_actual_neighbor r c dr dc width height hLoc hCol vLoc vCol =
      some (r + dr, c + dc) := by
  unfold get_actual_neighbor
  rw [hd]
  simp only [if_neg hb]

theorem departCheck_some_isSome {r c dr dc : Int} {hLoc : LocMap} {hCol : ColMap}
    {vLoc : LocMap} {vCol : ColMap} {res : Option Loc}
    (hinvH : portalInvariant hLoc hCol) (hinvV : portalInvariant vLoc vCol)
    (h : departCheck r c dr dc hLoc hCol vLoc vCol = some res) :
    ∃ p, res = some p := by
  unfold departCheck at h
  split at h <;> rename_i hv hh
  case _ cv ch =>
    split at h
    · injection h with h'
      obtain ⟨q, hq⟩ := get_other_portal_of_inv hinvV hv
      exact ⟨_, by rw [← h', hq]; rfl⟩
    · split at h
      · injection h with h'
        obtain ⟨q, hq⟩ := get_other_portal_of_inv hinvH hh
        exact ⟨_, by rw [← h', hq]; rfl⟩
      · split at h
        · injection h with h'
          obtain ⟨q, hq⟩ := get_other_portal_of_inv hinvV hv
          exact ⟨_, by rw [← h', hq]; rfl⟩
        · split at h
          · injection h with h'
            obtain ⟨q, hq⟩ := get_other_portal_of_inv hinvH hh
            exact ⟨_, by rw [← h', hq]; rfl⟩
          · exact absurd h (by simp)
  case _ cv =>
    split at h
    · injection h with h'
      obtain ⟨q, hq⟩ := get_other_portal_of_inv hinvV hv
      exact ⟨_, by rw [← h', hq]; rfl⟩
    · split at h
      · injection h with h'
        obtain ⟨q, hq⟩ := get_other_portal_of_inv hinvV hv
        exact ⟨_, by rw [← h', hq]; rfl⟩
      · exact absurd h (by simp)
  case _ ch =>
    split at h
    · injection h with h'
      obtain ⟨q, hq⟩ := get_other_portal_of_inv hinvH hh
      exact ⟨_, by rw [← h', hq]; rfl⟩
    · split at h
      · injection h with h'
        obtain ⟨q, hq⟩ := get_other_portal_of_inv hinvH hh
        exact ⟨_, by rw [← h', hq]; rfl⟩
      · exact absurd h (by simp)
  case _ =>
    exact absurd h (by simp)

theorem symmCheck_some_isSome {r c dr dc nrStd ncStd : Int} {hLoc : LocMap}
    {hCol : ColMap} {vLoc : LocMap} {vCol : ColMap} {res : Option Loc}
    (hinvH : portalInvariant hLoc hCol) (hinvV : portalInvariant vLoc vCol)
    (h : symmCheck r c dr dc nrStd ncStd hLoc hCol vLoc vCol = some res) :
    ∃ p, res = some p := by
  unfold symmCheck at h
  split at h <;> rename_i hv hh
  case _ cv ch =>
    split at h
    · injection h with h'
      obtain ⟨q, hq⟩ := get_other_portal_of_inv hinvV hv
      exact ⟨_, by rw [← h', hq]; rfl⟩
    · split at h
      · injection h with h'
        obtain ⟨q, hq⟩ := get_other_portal_of_inv hinvH hh
        exact ⟨_, by rw [← h', hq]; rfl⟩
      · split at h
        · injection h with h'
          obtain ⟨q, hq⟩ := get_other_portal_of_inv hinvV hv
          exact ⟨_, by rw [← h', hq]; rfl⟩
        · split at h
          · injection h with h'
            obtain ⟨q, hq⟩ := get_other_portal_of_inv hinvH hh
            exact ⟨_, by rw [← h', hq]; rfl⟩
          · exact absurd h (by simp)
  case _ cv =>
    split at h
    · injection h with h'
      obtain ⟨q, hq⟩ := get_other_portal_of_inv hinvV hv
      exact ⟨_, by rw [← h', hq]; rfl⟩
    · split at h
      · injection h with h'
        obtain ⟨q, hq⟩ := get_other_portal_of_inv hinvV hv
        exact ⟨_, by rw [← h', hq]; rfl⟩
      · exact absurd h (by simp)
  case _ ch =>
    split at h
    · injection h with h'
      obtain ⟨q, hq⟩ := get_other_portal_of_inv hinvH hh
      exact ⟨_, by rw [← h', hq]; rfl⟩
    · split at h
      · injection h with h'
        obtain ⟨q, hq⟩ := get_other_portal_of_inv hinvH hh
        exact ⟨_, by rw [← h', hq]; rfl⟩
      · exact absurd h (by simp)
  case _ =>
    exact absurd h (by simp)

theorem gan_isSome {r c dr dc width height : Int} {hLoc : LocMap} {hCol : ColMap}
    {vLoc : LocMap} {vCol : ColMap}
    (hinvH : portalInvariant hLoc hCol) (hinvV : portalInvariant vLoc vCol) :
    ∃ p, get_actual_neighbor r c dr dc width height hLoc hCol vLoc vCol = some p := by
  rcases hd : departCheck r c dr dc hLoc hCol vLoc vCol with _ | res
  · by_cases hb : inBounds width height (r + dr, c + dc)
    · rcases hs : symmCheck r c dr dc (r + dr) (c + dc) hLoc hCol vLoc vCol with _ | res
      · exact ⟨_, gan_default_in hd hb hs⟩
      · obtain ⟨p, hp⟩ := symmCheck_some_isSome hinvH hinvV hs
        exact ⟨p, by rw [gan_of_symm hd hb hs, hp]⟩
    · exact ⟨_, gan_default_out hd hb⟩
  · obtain ⟨p, hp⟩ := departCheck_some_isSome hinvH hinvV hd
    exact ⟨p, by rw [gan_of_depart hd, hp]⟩

/-! ### Board reads and neighbor counting -/

theorem boardGetNp_eq_cellAt {board : List (List Nat)} {width height rr cc : Int}
    (hlen : board.length = height.toNat)
    (hrow : ∀ row ∈ board, row.length = width.toNat)
    (hin : inBounds width height (rr, cc)) :
    boardGetNp board rr cc = some (cellAt board rr cc) := by
  obtain ⟨h1, h2, h3, h4⟩ := hin
  simp only at h1 h2 h3 h4
  have hr : rr.toNat < board.length := by omega
  have hnr : npIndex board.length rr = some rr.toNat := by
    unfold npIndex
    rw [if_pos h1, if_pos (by omega)]
  rcases hq : board.get? rr.toNat with _ | row
  · rw [List.get?_eq_none] at hq
    omega
  · have hrowmem : row ∈ board := List.get?_mem hq
    have hrl : row.length = width.toNat := hrow row hrowmem
    have hc : cc.toNat < row.length := by omega
    have hnc : npIndex row.length cc = some cc.toNat := by
      unfold npIndex
      rw [if_pos h3, if_pos (by omega)]
    rcases hq2 : row.get? cc.toNat with _ | v
    · rw [List.get?_eq_none] at hq2
      omega
    · unfold boardGetNp cellAt
      simp only [hnr, hq, hnc, hq2, Option.getD_some]

theorem count_fold_eq {r c : Int} {board : List (List Nat)} {width height : Int}
    {hLoc : LocMap} {hCol : ColMap} {vLoc : LocMap} {vCol : ColMap}
    (hlen : board.length = height.toNat)
    (hrow : ∀ row ∈ board, row.length = width.toNat) :
    ∀ (L : List (Int × Int)) (n : Nat),
      (∀ d ∈ L, ∃ p,
        get_actual_neighbor r c d.1 d.2 width height hLoc hCol vLoc vCol = some p) →
      L.foldl
        (fun acc d =>
          acc.bind fun n =>
            (get_actual_neighbor r c d.1 d.2 width height hLoc hCol vLoc vCol).bind
              fun nb =>
                if inBounds width height nb then
                  (boardGetNp board nb.1 nb.2).map fun v => n + v
                else some n)
        (some n) =
      some (L.foldl
        (fun acc d =>
          match get_actual_neighbor r c d.1 d.2 width height hLoc hCol vLoc vCol with
          | some nb =>
            if inBounds width height nb then acc + cellAt board nb.1 nb.2 else acc
          | none => acc)
        n) := by
  intro L
  induction L with
  | nil => intro n _; rfl
  | cons d L ih =>
    intro n hall
    obtain ⟨p, hp⟩ := hall d (List.mem_cons_self _ _)
    have hall' : ∀ d ∈ L, ∃ q,
        get_actual_neighbor r c d.1 d.2 width height hLoc hCol vLoc vCol = some q :=
      fun x hx => hall x (List.mem_cons_of_mem _ hx)
    rw [List.foldl_cons, List.foldl_cons]
    by_cases hb : inBounds width height p
    · have hread : boardGetNp board p.1 p.2 = some (cellAt board p.1 p.2) :=
        boardGetNp_eq_cellAt hlen hrow (by obtain ⟨x, y⟩ := p; exact hb)
      rw [show ((some n).bind fun n =>
          (get_actual_neighbor r c d.1 d.2 width height hLoc hCol vLoc vCol).bind
            fun nb =>
              if inBounds width height nb then
                (boardGetNp board nb.1 nb.2).map fun v => n + v
              else some n) = some (n + cellAt board p.1 p.2) by
        simp [hp, if_pos hb, hread]]
      rw [ih _ hall']
      rw [show (match get_actual_neighbor r c d.1 d.2 width height hLoc hCol vLoc vCol with
          | some nb =>
            if inBounds width height nb then n + cellAt board nb.1 nb.2 else n
          | none => n) = n + cellAt board p.1 p.2 by rw [hp]; simp [if_pos hb]]
    · rw [show ((some n).bind fun n =>
          (get_actual_neighbor r c d.1 d.2 width height hLoc hCol vLoc vCol).bind
            fun nb =>
              if inBounds width height nb then
                (boardGetNp board nb.1 nb.2).map fun v => n + v
              else some n) = some n by simp [hp, if_neg hb]]
      rw [ih _ hall']
      rw [show (match get_actual_neighbor r c d.1 d.2 width height hLoc hCol vLoc vCol with
          | some nb =>
            if inBounds width height nb then n + cellAt board nb.1 nb.2 else n
          | none => n) = n by rw [hp]; simp [if_neg hb]]

theorem count_eq_pure {r c : Int} {board : List (List Nat)} {width height : Int}
    {hLoc : LocMap} {hCol : ColMap} {vLoc : LocMap} {vCol : ColMap}
    (hinvH : portalInvariant hLoc hCol) (hinvV : portalInvariant vLoc vCol)
    (hlen : board.length = height.toNat)
    (hrow : ∀ row ∈ board, row.length = width.toNat) :
    count_live_neighbors r c board width height hLoc hCol vLoc vCol =
      some (pureCount r c board width height hLoc hCol vLoc vCol) := by
  unfold count_live_neighbors pureCount
  exact count_fold_eq hlen hrow neighborOffsets 0
    (fun d _ => gan_isSome hinvH hinvV)

/-! ### Lemmas about step -/

theorem optList_eq_map {α β : Type} (f : α → Option β) (g : α → β) :
    ∀ L : List α, (∀ x ∈ L, f x = some (g x)) → optList f L = some (L.map g) := by
  intro L
  induction L with
  | nil => intro _; rfl
  | cons x xs ih =>
    intro h
    have hx := h x (List.mem_cons_self _ _)
    have hxs := ih fun y hy => h y (List.mem_cons_of_mem _ hy)
    unfold optList
    rw [hx, hxs]
    rfl

theorem cellAt_map_range (f : Nat → Nat → Nat) (H W r c : Nat)
    (hr : r < H) (hc : c < W) :
    cellAt ((List.range H).map fun i => (List.range W).map fun j => f i j)
      (r : Int) (c : Int) = f r c := by
  unfold cellAt
  have h1 : ((List.range H).map fun i => (List.range W).map fun j => f i j).get?
      (r : Int).toNat = some ((List.range W).map fun j => f r j) := by
    rw [Int.toNat_ofNat, List.get?_map, List.get?_range hr]
    rfl
  have h2 : ((List.range W).map fun j => f r j).get? (c : Int).toNat =
      some (f r c) := by
    rw [Int.toNat_ofNat, List.get?_map, List.get?_range hc]
    rfl
  simp only [h1, h2, Option.getD_some]

theorem inBounds_of_range {width height : Int} {r c : Nat}
    (hr : r < height.toNat) (hc : c < width.toNat) :
    inBounds width height ((r : Int), (c : Int)) := by
  unfold inBounds
  refine ⟨by omega, ?_, by omega, ?_⟩ <;> simp only [] <;> omega

theorem step_eq_map {board : List (List Nat)} {width height : Int}
    {hLoc : LocMap} {hCol : ColMap} {vLoc : LocMap} {vCol : ColMap}
    (hinvH : portalInvariant hLoc hCol) (hinvV : portalInvariant vLoc vCol)
    (hlen : board.length = height.toNat)
    (hrow : ∀ row ∈ board, row.length = width.toNat) :
    step board width height hLoc hCol vLoc vCol =
      some ((List.range height.toNat).map fun (r : Nat) =>
        (List.range width.toNat).map fun (c : Nat) =>
          nextCell board width height hLoc hCol vLoc vCol (r : Int) (c : Int)) := by
  unfold step
  refine optList_eq_map _ _ _ ?_
  intro r hr
  rw [List.mem_range] at hr
  refine optList_eq_map _ _ _ ?_
  intro c hc
  rw [List.mem_range] at hc
  have hcount := @count_eq_pure (r : Int) (c : Int) board width height
    hLoc hCol vLoc vCol hinvH hinvV hlen hrow
  have hread := @boardGetNp_eq_cellAt board width height (r : Int) (c : Int)
    hlen hrow (inBounds_of_range hr hc)
  rw [hcount, hread]
  unfold nextCell
  rfl

/-! ### Empty portal indices give standard Game of Life -/

theorem portalInvariant_nil : portalInvariant [] [] :=
  ⟨fun col locs h => by simp [alookup] at h,
   fun l col h => by simp [alookup] at h⟩

theorem gan_empty (r c dr dc width height : Int) :
    get_actual_neighbor r c dr dc width height [] [] [] [] =
      some (r + dr, c + dc) := by
  have hd : departCheck r c dr dc [] [] [] [] = none := rfl
  have hs : symmCheck r c dr dc (r + dr) (c + dc) [] [] [] [] = none := rfl
  by_cases hb : inBounds width height (r + dr, c + dc)
  · exact gan_default_in hd hb hs
  · exact gan_default_out hd hb

theorem pureCount_empty (r c : Int) (board : List (List Nat)) (width height : Int) :
    pureCount r c board width height [] [] [] [] =
      stdCountLive board width height r c := by
  unfold pureCount stdCountLive
  refine List.foldl_ext _ _ _ ?_
  intro acc d hd
  rw [gan_empty]

theorem count_empty {r c : Int} {board : List (List Nat)} {width height : Int}
    (hlen : board.length = height.toNat)
    (hrow : ∀ row ∈ board, row.length = width.toNat) :
    count_live_neighbors r c board width height [] [] [] [] =
      some (stdCountLive board width height r c) := by
  rw [count_eq_pure portalInvariant_nil portalInvariant_nil hlen hrow,
    pureCount_empty]

theorem golRule_eq (n : Nat) :
    (if n < 2 ∨ 3 < n then (0 : Nat) else 1) = (if n = 2 ∨ n = 3 then 1 else 0) := by
  split <;> split <;> omega

theorem nextCell_empty (board : List (List Nat)) (width height r c : Int) :
    nextCell board width height [] [] [] [] r c =
      (if cellAt board r c = 1 then
        (if stdCountLive board width height r c = 2 ∨
            stdCountLive board width height r c = 3 then 1 else 0)
      else (if stdCountLive board width height r c = 3 then 1 else 0)) := by
  unfold nextCell
  rw [pureCount_empty]
  by_cases hc : cellAt board r c = 1
  · rw [if_pos hc, if_pos hc, golRule_eq]
  · rw [if_neg hc, if_neg hc]

theorem step_empty {board : List (List Nat)} {width height : Int}
    (hlen : board.length = height.toNat)
    (hrow : ∀ row ∈ board, row.length = width.toNat) :
    step board width height [] [] [] [] = some (stdGolStep board width height) := by
  rw [step_eq_map portalInvariant_nil portalInvariant_nil hlen hrow]
  unfold stdGolStep
  congr 1
  refine List.map_congr_left ?_
  intro r _
  refine List.map_congr_left ?_
  intro c _
  rw [nextCell_empty]

theorem stepN_fixed {b : List (List Nat)} {width height : Int}
    {hLoc : LocMap} {hCol : ColMap} {vLoc : LocMap} {vCol : ColMap}
    (hfix : step b width height hLoc hCol vLoc vCol = some b) :
    ∀ N, stepN width height hLoc hCol vLoc vCol N b = some b := by
  intro N
  induction N with
  | zero => rfl
  | succ n ih =>
    unfold stepN
    rw [hfix]
    simpa using ih

/-! ### Bounds on wormhole-resolved locations -/

theorem departCheck_bounds {r c dr dc width height : Int} {hLoc : LocMap}
    {hCol : ColMap} {vLoc : LocMap} {vCol : ColMap} {res : Option Loc} {p : Loc}
    (hr : 0 ≤ r ∧ r < height) (hc : 0 ≤ c ∧ c < width)
    (hdr : -1 ≤ dr ∧ dr ≤ 1) (hdc : -1 ≤ dc ∧ dc ≤ 1)
    (hepH : ∀ col locs, alookup col hCol = some locs →
      ∀ q ∈ locs, inBounds width height q)
    (hepV : ∀ col locs, alookup col vCol = some locs →
      ∀ q ∈ locs, inBounds width height q)
    (hd : departCheck r c dr dc hLoc hCol vLoc vCol = some res)
    (hres : res = some p) :
    -1 ≤ p.1 ∧ p.1 ≤ height ∧ -1 ≤ p.2 ∧ p.2 ≤ width := by
  subst hres
  unfold departCheck at hd
  split at hd <;>
    [skip; skip; skip; exact Option.noConfusion hd] <;>
    (repeat' split at hd) <;>
    try exact Option.noConfusion hd
  all_goals (
    injection hd with hd'
    obtain ⟨o, ho, hfo⟩ := Option.map_eq_some'.mp hd'
    first
      | (obtain ⟨locs, hlocs, homem⟩ := get_other_portal_mem ho
         have hob := hepV _ _ hlocs o homem
         obtain ⟨o1, o2⟩ := o
         obtain ⟨b1, b2, b3, b4⟩ := hob
         subst hfo
         dsimp only at b1 b2 b3 b4 ⊢
         omega)
      | (obtain ⟨locs, hlocs, homem⟩ := get_other_portal_mem ho
         have hob := hepH _ _ hlocs o homem
         obtain ⟨o1, o2⟩ := o
         obtain ⟨b1, b2, b3, b4⟩ := hob
         subst hfo
         dsimp only at b1 b2 b3 b4 ⊢
         omega))

theorem symmCheck_bounds {r c dr dc width height : Int} {hLoc : LocMap}
    {hCol : ColMap} {vLoc : LocMap} {vCol : ColMap} {res : Option Loc} {p : Loc}
    (hr : 0 ≤ r ∧ r < height) (hc : 0 ≤ c ∧ c < width)
    (hdr : -1 ≤ dr ∧ dr ≤ 1) (hdc : -1 ≤ dc ∧ dc ≤ 1)
    (hepH : ∀ col locs, alookup col hCol = some locs →
      ∀ q ∈ locs, inBounds width height q)
    (hepV : ∀ col locs, alookup col vCol = some locs →
      ∀ q ∈ locs, inBounds width height q)
    (hs : symmCheck r c dr dc (r + dr) (c + dc) hLoc hCol vLoc vCol = some res)
    (hres : res = some p) :
    -1 ≤ p.1 ∧ p.1 ≤ height ∧ -1 ≤ p.2 ∧ p.2 ≤ width := by
  subst hres
  unfold symmCheck at hs
  split at hs <;>
    [skip; skip; skip; exact Option.noConfusion hs] <;>
    (repeat' split at hs) <;>
    try exact Option.noConfusion hs
  all_goals (
    injection hs with hs'
    obtain ⟨o, ho, hfo⟩ := Option.map_eq_some'.mp hs'
    first
      | (obtain ⟨locs, hlocs, homem⟩ := get_other_portal_mem ho
         have hob := hepV _ _ hlocs o homem
         obtain ⟨o1, o2⟩ := o
         obtain ⟨b1, b2, b3, b4⟩ := hob
         subst hfo
         dsimp only at b1 b2 b3 b4 ⊢
         omega)
      | (obtain ⟨locs, hlocs, homem⟩ := get_other_portal_mem ho
         have hob := hepH _ _ hlocs o homem
         obtain ⟨o1, o2⟩ := o
         obtain ⟨b1, b2, b3, b4⟩ := hob
         subst hfo
         dsimp only at b1 b2 b3 b4 ⊢
         omega))

theorem gan_extended_bounds {r c dr dc width height : Int} {hLoc : LocMap}
    {hCol : ColMap} {vLoc : LocMap} {vCol : ColMap} {p : Loc}
    (hr : 0 ≤ r ∧ r < height) (hc : 0 ≤ c ∧ c < width)
    (hdr : -1 ≤ dr ∧ dr ≤ 1) (hdc : -1 ≤ dc ∧ dc ≤ 1)
    (hepH : ∀ col locs, alookup col hCol = some locs →
      ∀ q ∈ locs, inBounds width height q)
    (hepV : ∀ col locs, alookup col vCol = some locs →
      ∀ q ∈ locs, inBounds width height q)
    (h : get_actual_neighbor r c dr dc width height hLoc hCol vLoc vCol = some p) :
    -1 ≤ p.1 ∧ p.1 ≤ height ∧ -1 ≤ p.2 ∧ p.2 ≤ width := by
  unfold get_actual_neighbor at h
  split at h
  · exact departCheck_bounds hr hc hdr hdc hepH hepV (by assumption) h
  · split at h
    · split at h
      · exact symmCheck_bounds hr hc hdr hdc hepH hepV (by assumption) h
      · injection h with h'
        obtain ⟨p1, p2⟩ := p
        injection h' with ha hb
        dsimp only
        omega
    · injection h with h'
      obtain ⟨p1, p2⟩ := p
      injection h' with ha hb
      dsimp only
      omega

/-! ### Characterization of load_tunnels output -/

theorem load_tunnels_byColor_of_ge2 {pixels : List (Loc × Color)} {col : Color}
    {o1 o2 : Loc} {os : List Loc} (h : occsFrom col pixels = o1 :: o2 :: os) :
    alookup col (load_tunnels pixels).2 = some [o1, o2] := by
  unfold load_tunnels
  exact proc_byColor_reg _ _ (groupByColor_keys_nodup pixels)
    (groupByColor_alookup_of_occ h)

theorem load_tunnels_byColor_of_lt2 {pixels : List (Loc × Color)} {col : Color}
    (h : (occsFrom col pixels).length < 2) :
    alookup col (load_tunnels pixels).2 = none := by
  unfold load_tunnels
  rcases ho : occsFrom col pixels with _ | ⟨o1, _ | ⟨o2, os⟩⟩
  · rw [proc_byColor_skip _ _
      (alookup_eq_none.mp (groupByColor_alookup_of_no_occ ho))]
    rfl
  · rw [proc_byColor_short _ _ (groupByColor_keys_nodup pixels)
      (groupByColor_alookup_of_occ ho) (by simp)]
    rfl
  · rw [ho] at h
    simp at h
    omega

theorem load_tunnels_byLoc_mem {pixels : List (Loc × Color)} {l : Loc} {col : Color}
    (hl : alookup l (load_tunnels pixels).1 = some col) :
    ∃ o1 o2 os, occsFrom col pixels = o1 :: o2 :: os ∧ (l = o1 ∨ l = o2) := by
  unfold load_tunnels at hl
  rcases proc_byLoc_inv _ _ hl with h | h
  · obtain ⟨locs, l1, l2, t, hmem, hlocs, hor⟩ := h
    have hcg := alookup_of_mem_nodup (groupByColor_keys_nodup pixels) hmem
    rcases ho : occsFrom col pixels with _ | ⟨o, os⟩
    · rw [groupByColor_alookup_of_no_occ ho] at hcg
      exact Option.noConfusion hcg
    · rw [groupByColor_alookup_of_occ ho] at hcg
      injection hcg with h2
      subst hlocs
      rcases os with _ | ⟨o2, os2⟩
      · injection h2 with h3 h4
        exact absurd h4.symm (List.cons_ne_nil _ _)
      · injection h2 with h3 h4
        injection h4 with h5 h6
        refine ⟨o, o2, os2, rfl, ?_⟩
        rw [h3, h5]
        exact hor
  · simp [alookup] at h

theorem load_tunnels_byLoc_reg {pixels : List (Loc × Color)} {col : Color}
    {o1 o2 : Loc} {os : List Loc} (hnd : (pixels.map Prod.fst).Nodup)
    (h : occsFrom col pixels = o1 :: o2 :: os) :
    alookup o1 (load_tunnels pixels).1 = some col ∧
    alookup o2 (load_tunnels pixels).1 = some col := by
  unfold load_tunnels
  exact proc_byLoc_reg _ _ (groupByColor_flatten_nodup hnd)
    (alookup_mem (groupByColor_alookup_of_occ h)) rfl

theorem get_other_portal_shape {r c : Int} {col : Color} {bc : ColMap} {p : Loc}
    (h : get_other_portal r c col bc = some p) :
    ∃ l1 l2, alookup col bc = some [l1, l2] ∧ ((r, c) = l1 ∨ (r, c) = l2) := by
  unfold get_other_portal at h
  rcases hc : alookup col bc with _ | locs
  · rw [hc] at h
    exact Option.noConfusion h
  · rw [hc] at h
    match locs, h with
    | [], h => exact Option.noConfusion h
    | [a], h => exact Option.noConfusion h
    | a :: b :: x :: t, h => exact Option.noConfusion h
    | [l1, l2], h =>
      have h2 : (if l1 = (r, c) then some l2
          else if l2 = (r, c) then some l1 else none) = some p := h
      by_cases hx : l1 = (r, c)
      · exact ⟨l1, l2, rfl, Or.inl hx.symm⟩
      · rw [if_neg hx] at h2
        by_cases hy : l2 = (r, c)
        · exact ⟨l1, l2, rfl, Or.inr hy.symm⟩
        · rw [if_neg hy] at h2
          exact Option.noConfusion h2

/-! ### Claim theorems -/

/-- C1: for every in-grid cell `(r, c)` and offset `(dr, dc)` in
`{-1,0,1}^2` minus `(0,0)`, the four departure checks are evaluated in the
fixed precedence order top > right > bottom > left, the first match winning:
(1) a vertical-portal endpoint asked for `dr = -1` yields `(r2-1, c2+dc)`
from the partner `(r2, c2)`; (2) else a horizontal-portal endpoint asked for
`dc = +1` yields `(r2+dr, c2+1)`; (3) else a vertical-portal endpoint asked
for `dr = +1` yields `(r2+1, c2+dc)`; (4) else a horizontal-portal endpoint
asked for `dc = -1` yields `(r2+dr, c2-1)`. -/
theorem claim1_departure_precedence (r c dr dc width height : Int)
    (hLoc : LocMap) (hCol : ColMap) (vLoc : LocMap) (vCol : ColMap)
    (hin : inBounds width height (r, c)) (hoff : (dr, dc) ∈ neighborOffsets) :
    (∀ cv r2 c2, alookup (r, c) vLoc = some cv → dr = -1 →
      get_other_portal r c cv vCol = some (r2, c2) →
      get_actual_neighbor r c dr dc width height hLoc hCol vLoc vCol =
        some (r2 - 1, c2 + dc)) ∧
    (∀ ch r2 c2, (alookup (r, c) vLoc = none ∨ dr ≠ -1) →
      alookup (r, c) hLoc = some ch → dc = 1 →
      get_other_portal r c ch hCol = some (r2, c2) →
      get_actual_neighbor r c dr dc width height hLoc hCol vLoc vCol =
        some (r2 + dr, c2 + 1)) ∧
    (∀ cv r2 c2, (alookup (r, c) vLoc = none ∨ dr ≠ -1) →
      (alookup (r, c) hLoc = none ∨ dc ≠ 1) →
      alookup (r, c) vLoc = some cv → dr = 1 →
      get_other_portal r c cv vCol = some (r2, c2) →
      get_actual_neighbor r c dr dc width height hLoc hCol vLoc vCol =
        some (r2 + 1, c2 + dc)) ∧
    (∀ ch r2 c2, (alookup (r, c) vLoc = none ∨ dr ≠ -1) →
      (alookup (r, c) hLoc = none ∨ dc ≠ 1) →
      (alookup (r, c) vLoc = none ∨ dr ≠ 1) →
      alookup (r, c) hLoc = some ch → dc = -1 →
      get_other_portal r c ch hCol = some (r2, c2) →
      get_actual_neighbor r c dr dc width height hLoc hCol vLoc vCol =
        some (r2 + dr, c2 - 1)) := by
  refine ⟨?_, ?_, ?_, ?_⟩
  · intro cv r2 c2 hv hdr hgop
    rw [gan_of_depart (departCheck_top hv hdr), hgop]
    rfl
  · intro ch r2 c2 hp1 hh hdc hgop
    have hnv : ∀ cv', alookup (r, c) vLoc = some cv' → dr ≠ -1 := by
      intro cv' hcv'
      rcases hp1 with hp | hp
      · rw [hp] at hcv'
        exact Option.noConfusion hcv'
      · exact hp
    rw [gan_of_depart (departCheck_right hh hdc hnv), hgop]
    rfl
  · intro cv r2 c2 _hp1 hp2 hv hdr hgop
    have hnh : ∀ ch', alookup (r, c) hLoc = some ch' → dc ≠ 1 := by
      intro ch' hch'
      rcases hp2 with hp | hp
      · rw [hp] at hch'
        exact Option.noConfusion hch'
      · exact hp
    rw [gan_of_depart (departCheck_bottom hv hdr hnh), hgop]
    rfl
  · intro ch r2 c2 hp1 _hp2 hp3 hh hdc hgop
    have hnv : ∀ cv', alookup (r, c) vLoc = some cv' → dr ≠ -1 ∧ dr ≠ 1 := by
      intro cv' hcv'
      constructor
      · rcases hp1 with hp | hp
        · rw [hp] at hcv'
          exact Option.noConfusion hcv'
        · exact hp
      · rcases hp3 with hp | hp
        · rw [hp] at hcv'
          exact Option.noConfusion hcv'
        · exact hp
    rw [gan_of_depart (departCheck_left hh hdc hnv), hgop]
    rfl

/-- Witness for C1: a vertical portal `(1,1) - (3,3)` on a 5 x 5 grid;
querying `(1,1)` upward resolves one step above the partner: `(2, 3)`. -/
theorem claim1_witness :
    get_actual_neighbor 1 1 (-1) 0 5 5 [] []
      [((1, 1), 7), ((3, 3), 7)] [(7, [(1, 1), (3, 3)])] = some (2, 3) := by
  have h := (claim1_departure_precedence 1 1 (-1) 0 5 5 [] []
    [((1, 1), 7), ((3, 3), 7)] [(7, [(1, 1), (3, 3)])]
    (by decide) (by decide)).1 7 3 3 (by decide) rfl (by decide)
  exact h.trans (by decide)

/-- C2: when no departure check fires and the standard neighbor
`(r+dr, c+dc)` is in bounds, the four symmetric rules apply in listed order,
first match wins: (a) vertical endpoint approached with `dr = +1`;
(b) horizontal endpoint approached with `dc = -1`; (c) vertical endpoint
approached with `dr = -1`; (d) horizontal endpoint approached with
`dc = +1`; if no rule applies (or the standard neighbor is out of bounds),
the result is the plain arithmetic neighbor. -/
theorem claim2_symmetric_rules (r c dr dc width height : Int)
    (hLoc : LocMap) (hCol : ColMap) (vLoc : LocMap) (vCol : ColMap)
    (h1 : alookup (r, c) vLoc = none ∨ dr ≠ -1)
    (h2 : alookup (r, c) hLoc = none ∨ dc ≠ 1)
    (h3 : alookup (r, c) vLoc = none ∨ dr ≠ 1)
    (h4 : alookup (r, c) hLoc = none ∨ dc ≠ -1) :
    (∀ cv r2 c2, inBounds width height (r + dr, c + dc) →
      alookup (r + dr, c + dc) vLoc = some cv → dr = 1 →
      get_other_portal (r + dr) (c + dc) cv vCol = some (r2, c2) →
      get_actual_neighbor r c dr dc width height hLoc hCol vLoc vCol =
        some (r2 - 1, c2 + (c - (c + dc)))) ∧
    (∀ ch r2 c2, inBounds width height (r + dr, c + dc) →
      (alookup (r + dr, c + dc) vLoc = none ∨ dr ≠ 1) →
      alookup (r + dr, c + dc) hLoc = some ch → dc = -1 →
      get_other_portal (r + dr) (c + dc) ch hCol = some (r2, c2) →
      get_actual_neighbor r c dr dc width height hLoc hCol vLoc vCol =
        some (r2 + (r - (r + dr)), c2 - 1)) ∧
    (∀ cv r2 c2, inBounds width height (r + dr, c + dc) →
      (alookup (r + dr, c + dc) vLoc = none ∨ dr ≠ 1) →
      (alookup (r + dr, c + dc) hLoc = none ∨ dc ≠ -1) →
      alookup (r + dr, c + dc) vLoc = some cv → dr = -1 →
      get_other_portal (r + dr) (c + dc) cv vCol = some (r2, c2) →
      get_actual_neighbor r c dr dc width height hLoc hCol vLoc vCol =
        some (r2 + 1, c2 + (c - (c + dc)))) ∧
    (∀ ch r2 c2, inBounds width height (r + dr, c + dc) →
      (alookup (r + dr, c + dc) vLoc = none ∨ dr ≠ 1) →
      (alookup (r + dr, c + dc) hLoc = none ∨ dc ≠ -1) →
      (alookup (r + dr, c + dc) vLoc = none ∨ dr ≠ -1) →
      alookup (r + dr, c + dc) hLoc = some ch → dc = 1 →
      get_other_portal (r + dr) (c + dc) ch hCol = some (r2, c2) →
      get_actual_neighbor r c dr dc width height hLoc hCol vLoc vCol =
        some (r2 + (r - (r + dr)), c2 + 1)) ∧
    (inBounds width height (r + dr, c + dc) →
      (alookup (r + dr, c + dc) vLoc = none ∨ (dr ≠ 1 ∧ dr ≠ -1)) →
      (alookup (r + dr, c + dc) hLoc = none ∨ (dc ≠ -1 ∧ dc ≠ 1)) →
      get_actual_neighbor r c dr dc width height hLoc hCol vLoc vCol =
        some (r + dr, c + dc)) ∧
    (¬ inBounds width height (r + dr, c + dc) →
      get_actual_neighbor r c dr dc width height hLoc hCol vLoc vCol =
        some (r + dr, c + dc)) := by
  have hnv : ∀ cv', alookup (r, c) vLoc = some cv' → dr ≠ -1 ∧ dr ≠ 1 := by
    intro cv' hcv'
    constructor
    · rcases h1 with hp | hp
      · rw [hp] at hcv'
        exact Option.noConfusion hcv'
      · exact hp
    · rcases h3 with hp | hp
      · rw [hp] at hcv'
        exact Option.noConfusion hcv'
      · exact hp
  have hnh : ∀ ch', alookup (r, c) hLoc = some ch' → dc ≠ 1 ∧ dc ≠ -1 := by
    intro ch' hch'
    constructor
    · rcases h2 with hp | hp
      · rw [hp] at hch'
        exact Option.noConfusion hch'
      · exact hp
    · rcases h4 with hp | hp
      · rw [hp] at hch'
        exact Option.noConfusion hch'
      · exact hp
  have hd : departCheck r c dr dc hLoc hCol vLoc vCol = none :=
    departCheck_none hnv hnh
  refine ⟨?_, ?_, ?_, ?_, ?_, ?_⟩
  · intro cv r2 c2 hb hv hdr hgop
    rw [gan_of_symm hd hb (symmCheck_top hv hdr), hgop]
    rfl
  · intro ch r2 c2 hb hs1 hh hdc hgop
    have hnv' : ∀ cv', alookup (r + dr, c + dc) vLoc = some cv' → dr ≠ 1 := by
      intro cv' hcv'
      rcases hs1 with hp | hp
      · rw [hp] at hcv'
        exact Option.noConfusion hcv'
      · exact hp
    rw [gan_of_symm hd hb (symmCheck_left hh hdc hnv'), hgop]
    rfl
  · intro cv r2 c2 hb _hs1 hs2 hv hdr hgop
    have hnh' : ∀ ch', alookup (r + dr, c + dc) hLoc = some ch' → dc ≠ -1 := by
      intro ch' hch'
      rcases hs2 with hp | hp
      · rw [hp] at hch'
        exact Option.noConfusion hch'
      · exact hp
    rw [gan_of_symm hd hb (symmCheck_bottom hv hdr hnh'), hgop]
    rfl
  · intro ch r2 c2 hb hs1 _hs2 hs3 hh hdc hgop
    have hnv' : ∀ cv', alookup (r + dr, c + dc) vLoc = some cv' →
        dr ≠ 1 ∧ dr ≠ -1 := by
      intro cv' hcv'
      constructor
      · rcases hs1 with hp | hp
        · rw [hp] at hcv'
          exact Option.noConfusion hcv'
        · exact hp
      · rcases hs3 with hp | hp
        · rw [hp] at hcv'
          exact Option.noConfusion hcv'
        · exact hp
    rw [gan_of_symm hd hb (symmCheck_right hh hdc hnv'), hgop]
    rfl
  · intro hb hs1 hs2
    have hnv' : ∀ cv', alookup (r + dr, c + dc) vLoc = some cv' →
        dr ≠ 1 ∧ dr ≠ -1 := by
      intro cv' hcv'
      rcases hs1 with hp | hp
      · rw [hp] at hcv'
        exact Option.noConfusion hcv'
      · exact hp
    have hnh' : ∀ ch', alookup (r + dr, c + dc) hLoc = some ch' →
        dc ≠ -1 ∧ dc ≠ 1 := by
      intro ch' hch'
      rcases hs2 with hp | hp
      · rw [hp] at hch'
        exact Option.noConfusion hch'
      · exact hp
    exact gan_default_in hd hb (symmCheck_none hnv' hnh')
  · intro hb
    exact gan_default_out hd hb

/-- Witness for C2: a vertical portal `(2,2) - (4,4)` on a 5 x 5 grid; cell
`(1,2)` looking down hits the endpoint `(2,2)` and is redirected one step
above the partner: `(3, 4)`. -/
theorem claim2_witness :
    get_actual_neighbor 1 2 1 0 5 5 [] []
      [((2, 2), 9), ((4, 4), 9)] [(9, [(2, 2), (4, 4)])] = some (3, 4) := by
  have h := (claim2_symmetric_rules 1 2 1 0 5 5 [] []
    [((2, 2), 9), ((4, 4), 9)] [(9, [(2, 2), (4, 4)])]
    (by decide) (by decide) (by decide) (by decide)).1 9 4 4
    (by decide) (by decide) rfl (by decide)
  exact h.trans (by decide)

/-- C4 (amended): for an in-grid cell, an offset in `{-1,0,1}^2 - (0,0)` and
portal indices whose endpoints are all in-grid, every location returned by
`get_actual_neighbor` lies within the one-cell border of the grid
(`-1 <= row <= height`, `-1 <= col <= width`); it is NOT guaranteed to lie
strictly within grid bounds even when a wormhole rule applies (see the
counterexample), so the consumer must bounds-check. -/
theorem claim4_amended_border_bounds (r c dr dc width height : Int)
    (hLoc : LocMap) (hCol : ColMap) (vLoc : LocMap) (vCol : ColMap)
    (hin : inBounds width height (r, c)) (hoff : (dr, dc) ∈ neighborOffsets)
    (hepH : ∀ col locs, alookup col hCol = some locs →
      ∀ q ∈ locs, inBounds width height q)
    (hepV : ∀ col locs, alookup col vCol = some locs →
      ∀ q ∈ locs, inBounds width height q) :
    ∀ p, get_actual_neighbor r c dr dc width height hLoc hCol vLoc vCol = some p →
      -1 ≤ p.1 ∧ p.1 ≤ height ∧ -1 ≤ p.2 ∧ p.2 ≤ width := by
  intro p hp
  obtain ⟨hb1, hb2, hb3, hb4⟩ := hin
  dsimp only at hb1 hb2 hb3 hb4
  have hrange : (-1 ≤ dr ∧ dr ≤ 1) ∧ (-1 ≤ dc ∧ dc ≤ 1) := by
    simp only [neighborOffsets, List.mem_cons, List.mem_singleton,
      Prod.mk.injEq, List.not_mem_nil, or_false] at hoff
    rcases hoff with ⟨ha, hb⟩ | ⟨ha, hb⟩ | ⟨ha, hb⟩ | ⟨ha, hb⟩ | ⟨ha, hb⟩ |
      ⟨ha, hb⟩ | ⟨ha, hb⟩ | ⟨ha, hb⟩ <;> subst ha <;> subst hb <;> norm_num
  exact gan_extended_bounds ⟨hb1, hb2⟩ ⟨hb3, hb4⟩ hrange.1 hrange.2 hepH hepV hp

/-- Counterexample for C4 as stated: a vertical portal joining the in-grid
endpoints `(0,0)` and `(0,2)` of a 3-wide, 1-high grid; the departure check
fires for cell `(0,0)` asked for its top neighbor (the result differs from
the arithmetic neighbor), yet the resolved location `(-1, 2)` lies off-grid. -/
theorem claim4_counterexample :
    alookup ((0 : Int), (0 : Int))
      ([((0, 0), 7), ((0, 2), 7)] : LocMap) = some 7 ∧
    get_actual_neighbor 0 0 (-1) 0 3 1 [] []
      [((0, 0), 7), ((0, 2), 7)] [(7, [(0, 0), (0, 2)])] = some (-1, 2) ∧
    ¬ inBounds 3 1 ((-1 : Int), (2 : Int)) ∧
    (((-1 : Int), (2 : Int)) : Loc) ≠ (0 + (-1), 0 + 0) := by decide

/-- Witness for the amended C4 at the counterexample configuration: the
off-grid result still lies within the one-cell border. -/
theorem claim4_witness :
    -1 ≤ ((-1 : Int), (2 : Int)).1 ∧ ((-1 : Int), (2 : Int)).1 ≤ 1 ∧
    -1 ≤ ((-1 : Int), (2 : Int)).2 ∧ ((-1 : Int), (2 : Int)).2 ≤ 3 :=
  claim4_amended_border_bounds 0 0 (-1) 0 3 1 [] []
    [((0, 0), 7), ((0, 2), 7)] [(7, [(0, 0), (0, 2)])]
    (by decide) (by decide)
    (by intro col locs h q hq; simp [alookup] at h)
    (by
      intro col locs h q hq
      have hm := alookup_mem h
      simp only [List.mem_singleton] at hm
      injection hm with hm1 hm2
      subst hm2
      fin_cases hq <;> decide)
    (-1, 2) (by decide)

/-- C10: with a horizontal portal pair at `(0,0)` and `(0,2)` on a 1 x 3
grid, cell `(0,1)` queried with offset `(0, +1)` resolves via the symmetric
check to `(0,1)` itself (not the arithmetic neighbor `(0,2)`), so its own
live state is counted: with only `(0,1)` alive, its live-neighbor count is 2
(directions `(0,-1)` and `(0,+1)` both resolve to `(0,1)`). -/
theorem claim10_self_neighbor :
    get_actual_neighbor 0 1 0 1 3 1
      [((0, 0), 3), ((0, 2), 3)] [(3, [(0, 0), (0, 2)])] [] [] = some (0, 1) ∧
    (((0 : Int), (1 : Int)) : Loc) ≠ (0 + 0, 1 + 1) ∧
    count_live_neighbors 0 1 [[0, 1, 0]] 3 1
      [((0, 0), 3), ((0, 2), 3)] [(3, [(0, 0), (0, 2)])] [] [] = some 2 := by
  decide

/-- C3: `step` produces a new grid of identical dimensions (the input grid,
a value in this embedding, is only read); a live cell stays live iff its
wormhole-aware live-neighbor count is 2 or 3 and a dead cell becomes live
iff that count is exactly 3; the count sums all eight directions
independently with no deduplication (it is the eight-element fold
`pureCount`, whose value `count_live_neighbors` returns). -/
theorem claim3_step_rule (board : List (List Nat)) (width height : Int)
    (hLoc : LocMap) (hCol : ColMap) (vLoc : LocMap) (vCol : ColMap)
    (hinvH : portalInvariant hLoc hCol) (hinvV : portalInvariant vLoc vCol)
    (hlen : board.length = height.toNat)
    (hrow : ∀ row ∈ board, row.length = width.toNat) :
    ∃ newBoard, step board width height hLoc hCol vLoc vCol = some newBoard ∧
      newBoard.length = height.toNat ∧
      (∀ row ∈ newBoard, row.length = width.toNat) ∧
      (∀ (i j : Nat), i < height.toNat → j < width.toNat →
        count_live_neighbors (i : Int) (j : Int) board width height
            hLoc hCol vLoc vCol =
          some (pureCount (i : Int) (j : Int) board width height
            hLoc hCol vLoc vCol) ∧
        (cellAt newBoard (i : Int) (j : Int) = 1 ↔
          ((cellAt board (i : Int) (j : Int) = 1 ∧
            (pureCount (i : Int) (j : Int) board width height hLoc hCol vLoc vCol = 2 ∨
             pureCount (i : Int) (j : Int) board width height hLoc hCol vLoc vCol = 3)) ∨
           (cellAt board (i : Int) (j : Int) ≠ 1 ∧
            pureCount (i : Int) (j : Int) board width height hLoc hCol vLoc vCol = 3)))) := by
  refine ⟨_, step_eq_map hinvH hinvV hlen hrow, ?_, ?_, ?_⟩
  · simp
  · intro row hr
    simp only [List.mem_map] at hr
    obtain ⟨i, _, hrow2⟩ := hr
    rw [← hrow2]
    simp
  · intro i j hi hj
    refine ⟨count_eq_pure hinvH hinvV hlen hrow, ?_⟩
    rw [cellAt_map_range _ _ _ _ _ hi hj]
    unfold nextCell
    by_cases hcell : cellAt board (i : Int) (j : Int) = 1
    · simp only [if_pos hcell]
      simp only [hcell, ne_eq, not_true_eq_false, false_and, or_false, true_and]
      split <;> omega
    · simp only [if_neg hcell]
      simp only [hcell, ne_eq, not_false_eq_true, false_and, false_or, true_and]
      split <;> omega

/-- Witness for C3 at a concrete 2 x 2 all-live board with empty indices. -/
theorem claim3_witness :
    ∃ newBoard, step [[1, 1], [1, 1]] 2 2 [] [] [] [] = some newBoard ∧
      newBoard.length = (2 : Int).toNat ∧
      (∀ row ∈ newBoard, row.length = (2 : Int).toNat) ∧
      (∀ (i j : Nat), i < (2 : Int).toNat → j < (2 : Int).toNat →
        count_live_neighbors (i : Int) (j : Int) [[1, 1], [1, 1]] 2 2 [] [] [] [] =
          some (pureCount (i : Int) (j : Int) [[1, 1], [1, 1]] 2 2 [] [] [] []) ∧
        (cellAt newBoard (i : Int) (j : Int) = 1 ↔
          ((cellAt [[1, 1], [1, 1]] (i : Int) (j : Int) = 1 ∧
            (pureCount (i : Int) (j : Int) [[1, 1], [1, 1]] 2 2 [] [] [] [] = 2 ∨
             pureCount (i : Int) (j : Int) [[1, 1], [1, 1]] 2 2 [] [] [] [] = 3)) ∨
           (cellAt [[1, 1], [1, 1]] (i : Int) (j : Int) ≠ 1 ∧
            pureCount (i : Int) (j : Int) [[1, 1], [1, 1]] 2 2 [] [] [] [] = 3)))) :=
  claim3_step_rule [[1, 1], [1, 1]] 2 2 [] [] [] []
    portalInvariant_nil portalInvariant_nil (by decide) (by decide)

/-- C5: for every duplicate-free pixel scan (an image assigns each location
at most one colour), the pair of structures built by `load_tunnels`
satisfies the PortalIndex invariant: every colour in `byColor` maps to
exactly two locations, each a key of `byLocation` mapping back to it, and
every `byLocation` key belongs to its colour's pair. -/
theorem claim5_portal_invariant (pixels : List (Loc × Color))
    (hnd : (pixels.map Prod.fst).Nodup) :
    portalInvariant (load_tunnels pixels).1 (load_tunnels pixels).2 := by
  constructor
  · intro col locs hcol
    rcases ho : occsFrom col pixels with _ | ⟨o1, _ | ⟨o2, os⟩⟩
    · rw [load_tunnels_byColor_of_lt2 (by rw [ho]; simp)] at hcol
      exact Option.noConfusion hcol
    · rw [load_tunnels_byColor_of_lt2 (by rw [ho]; simp)] at hcol
      exact Option.noConfusion hcol
    · rw [load_tunnels_byColor_of_ge2 ho] at hcol
      injection hcol with h1
      subst h1
      refine ⟨rfl, ?_⟩
      obtain ⟨hr1, hr2⟩ := load_tunnels_byLoc_reg hnd ho
      intro l hl
      rcases List.mem_cons.mp hl with h | h
      · subst h
        exact hr1
      · rcases List.mem_cons.mp h with h | h
        · subst h
          exact hr2
        · simp at h
  · intro l col hl
    obtain ⟨o1, o2, os, ho, hor⟩ := load_tunnels_byLoc_mem hl
    refine ⟨[o1, o2], load_tunnels_byColor_of_ge2 ho, ?_⟩
    rcases hor with h | h <;> subst h <;> simp

/-- Witness for C5 on a two-pixel scan forming one portal pair. -/
theorem claim5_witness :
    portalInvariant (load_tunnels [((0, 0), 5), ((0, 2), 5)]).1
      (load_tunnels [((0, 0), 5), ((0, 2), 5)]).2 :=
  claim5_portal_invariant _ (by decide)

/-- C6: a colour with at least two occurrences (in row-major scan order) is
registered as the pair of its first two occurrences, further occurrences
silently dropped; a colour with fewer than two occurrences is absent from
both `byColor` and `byLocation`. -/
theorem claim6_pair_registration (pixels : List (Loc × Color)) (col : Color) :
    (2 ≤ (occsFrom col pixels).length →
      alookup col (load_tunnels pixels).2 =
        some ((occsFrom col pixels).take 2)) ∧
    ((occsFrom col pixels).length < 2 →
      alookup col (load_tunnels pixels).2 = none ∧
      ∀ l, alookup l (load_tunnels pixels).1 ≠ some col) := by
  constructor
  · intro hlen
    rcases ho : occsFrom col pixels with _ | ⟨o1, _ | ⟨o2, os⟩⟩
    · rw [ho] at hlen
      simp at hlen
    · rw [ho] at hlen
      simp at hlen
    · rw [load_tunnels_byColor_of_ge2 ho]
      rfl
  · intro hlen
    refine ⟨load_tunnels_byColor_of_lt2 hlen, ?_⟩
    intro l hl
    obtain ⟨o1, o2, os, ho, _⟩ := load_tunnels_byLoc_mem hl
    rw [ho] at hlen
    simp at hlen
    omega

/-- Witness for C6: a colour seen three times keeps its first two
occurrences; a colour seen once is dropped from `byColor`. -/
theorem claim6_witness :
    alookup 5 (load_tunnels [((0, 0), 5), ((0, 2), 5), ((1, 1), 5)]).2 =
      some ((occsFrom 5 [((0, 0), 5), ((0, 2), 5), ((1, 1), 5)]).take 2) ∧
    alookup 9 (load_tunnels [((0, 1), 9)]).2 = none := by
  constructor
  · exact (claim6_pair_registration _ 5).1 (by decide)
  · exact ((claim6_pair_registration _ 9).2 (by decide)).1

/-- C7: with both portal indices empty, `step` computes exactly one
generation of standard Game of Life with dead off-grid borders (it agrees
with the spec-side `stdGolStep` on every well-formed grid); in particular a
lone 2 x 2 block is a fixed point for every number of generations, and a
3 x 3 grid whose only live cell is `(1,1)` steps to the all-dead grid. -/
theorem claim7_standard_gol :
    (∀ (board : List (List Nat)) (width height : Int),
      board.length = height.toNat →
      (∀ row ∈ board, row.length = width.toNat) →
      step board width height [] [] [] [] =
        some (stdGolStep board width height)) ∧
    (∀ N : Nat, stepN 3 3 [] [] [] [] N [[1, 1, 0], [1, 1, 0], [0, 0, 0]] =
      some [[1, 1, 0], [1, 1, 0], [0, 0, 0]]) ∧
    step [[0, 0, 0], [0, 1, 0], [0, 0, 0]] 3 3 [] [] [] [] =
      some [[0, 0, 0], [0, 0, 0], [0, 0, 0]] :=
  ⟨fun _ _ _ hlen hrow => step_empty hlen hrow,
   stepN_fixed (by decide), by decide⟩

/-- Witness for C7 on a concrete 2 x 2 all-live board. -/
theorem claim7_witness :
    step [[1, 1], [1, 1]] 2 2 [] [] [] [] =
      some (stdGolStep [[1, 1], [1, 1]] 2 2) :=
  claim7_standard_gol.1 [[1, 1], [1, 1]] 2 2 (by decide) (by decide)

/-- C8: under the portal invariant and a well-formed board,
`count_live_neighbors` returns (without any out-of-bounds board read, which
would be a `none` here) the pure count `pureCount`, and that count depends
only on in-grid cells: any two boards agreeing on all in-bounds locations
give the same count, so an off-grid resolved neighbor contributes 0. -/
theorem claim8_offgrid_contributes_zero (r c : Int) (board : List (List Nat))
    (width height : Int) (hLoc : LocMap) (hCol : ColMap)
    (vLoc : LocMap) (vCol : ColMap)
    (hinvH : portalInvariant hLoc hCol) (hinvV : portalInvariant vLoc vCol)
    (hlen : board.length = height.toNat)
    (hrow : ∀ row ∈ board, row.length = width.toNat) :
    count_live_neighbors r c board width height hLoc hCol vLoc vCol =
      some (pureCount r c board width height hLoc hCol vLoc vCol) ∧
    (∀ b1 b2 : List (List Nat),
      (∀ p : Loc, inBounds width height p → cellAt b1 p.1 p.2 = cellAt b2 p.1 p.2) →
      pureCount r c b1 width height hLoc hCol vLoc vCol =
        pureCount r c b2 width height hLoc hCol vLoc vCol) := by
  refine ⟨count_eq_pure hinvH hinvV hlen hrow, ?_⟩
  intro b1 b2 hagree
  unfold pureCount
  refine List.foldl_ext _ _ _ ?_
  intro acc d _
  rcases hg : get_actual_neighbor r c d.1 d.2 width height hLoc hCol vLoc vCol
    with _ | nb
  · rfl
  · by_cases hb : inBounds width height nb
    · simp only [hg, if_pos hb]
      rw [hagree nb hb]
    · simp only [hg, if_neg hb]

/-- Witness for C8 on a 1 x 1 live board with empty indices. -/
theorem claim8_witness :
    count_live_neighbors 0 0 [[1]] 1 1 [] [] [] [] =
      some (pureCount 0 0 [[1]] 1 1 [] [] [] []) :=
  (claim8_offgrid_contributes_zero 0 0 [[1]] 1 1 [] [] [] []
    portalInvariant_nil portalInvariant_nil (by decide) (by decide)).1

/-- C9: `get_other_portal` raises (returns `none`) exactly when the colour
is absent from `byColor`, maps to a list that is not a two-element pair, or
`(r, c)` is not one of the pair's elements; under the PortalIndex invariant,
for every key of `byLocation` the error branch is unreachable and the unique
other endpoint is returned. -/
theorem claim9_other_portal_errors :
    (∀ (r c : Int) (col : Color) (bc : ColMap),
      get_other_portal r c col bc = none ↔
        ¬ ∃ l1 l2, alookup col bc = some [l1, l2] ∧
          ((r, c) = l1 ∨ (r, c) = l2)) ∧
    (∀ (bl : LocMap) (bc : ColMap), portalInvariant bl bc →
      ∀ (r c : Int) (col : Color), alookup (r, c) bl = some col →
        ∃ l1 l2, alookup col bc = some [l1, l2] ∧
          ((r, c) = l1 ∨ (r, c) = l2) ∧
          get_other_portal r c col bc =
            some (if l1 = (r, c) then l2 else l1)) := by
  constructor
  · intro r c col bc
    constructor
    · intro h hex
      obtain ⟨l1, l2, hp, hm⟩ := hex
      have h2 := get_other_portal_pair hp hm
      rw [h] at h2
      exact Option.noConfusion h2
    · intro hne
      rcases hg : get_other_portal r c col bc with _ | p
      · rfl
      · exact absurd (get_other_portal_shape hg) hne
  · intro bl bc hinv r c col hl
    obtain ⟨l1, l2, hp, hm⟩ := portalInvariant_pair hinv hl
    exact ⟨l1, l2, hp, hm, get_other_portal_pair hp hm⟩

/-- Witness for C9: on a concrete one-pair index, the other endpoint of
`(0,0)` is found without hitting the error branch. -/
theorem claim9_witness :
    ∃ l1 l2, alookup 5 ([(5, [((0, 0) : Loc), (0, 2)])] : ColMap) =
        some [l1, l2] ∧
      (((0 : Int), (0 : Int)) = l1 ∨ ((0 : Int), (0 : Int)) = l2) ∧
      get_other_portal 0 0 5 [(5, [(0, 0), (0, 2)])] =
        some (if l1 = ((0 : Int), (0 : Int)) then l2 else l1) :=
  claim9_other_portal_errors.2 [(((0, 0) : Loc), 5), ((0, 2), 5)]
    [(5, [(0, 0), (0, 2)])] (portalInvariant_of_checks (by decide))
    0 0 5 (by decide)
